import Mathlib

/-!
# etcdq: worker, allocator and job pipeline

A shallow embedding of `etcdq/package.go`, `etcdq/types.go`, `etcdq/worker.go`
and `etcdq/job.go`.  Go strings are Lean `String`s; the functions of the Go
standard library the code calls (`strings.Split`, `strings.SplitN`,
`path.Join`, `path.Clean`, `path.Base`) are written out on character lists.
Calls into etcd, docker, `encoding/json`, `fmt.Sprintf` with a computed format
and the clock are fields of a `World`, threaded through every function as
explicit state.
-/

set_option linter.dupNamespace false

namespace Etcdq

/-! ## Go standard library: `strings` and `path` -/

/-- Pieces of a character list between occurrences of `sep`
(`strings.Split` with a one-byte separator): always at least one piece. -/
def splitChars (sep : Char) : List Char → List (List Char)
  | [] => [[]]
  | c :: cs =>
    if c = sep then [] :: splitChars sep cs
    else
      match splitChars sep cs with
      | [] => [[c]]
      | p :: ps => (c :: p) :: ps

/-- The text before and after the first occurrence of `sep`, if there is one. -/
def cutFirst (sep : Char) : List Char → Option (List Char × List Char)
  | [] => none
  | c :: cs =>
    if c = sep then some ([], cs)
    else
      match cutFirst sep cs with
      | none => none
      | some (a, b) => some (c :: a, b)

/-- Go `strings.Split(s, sep)` for a one-byte separator. -/
def stringsSplit (s : String) (sep : Char) : List String :=
  (splitChars sep s.data).map String.mk

/-- Go `strings.SplitN(s, sep, 2)` for a one-byte separator: at most two
pieces, the second being everything after the first separator. -/
def stringsSplitN2 (s : String) (sep : Char) : List String :=
  match cutFirst sep s.data with
  | none => [s]
  | some (a, b) => [String.mk a, String.mk b]

/-- One step of `path.Clean` on the stack of kept elements (innermost first):
empty and `.` elements are dropped, `..` removes the element before it when
there is one that is not itself a kept `..`, is kept on a relative path and
is dropped at the root. -/
def cleanStep (rooted : Bool) (stack : List (List Char)) (comp : List Char) :
    List (List Char) :=
  if comp = [] ∨ comp = ['.'] then stack
  else if comp = ['.', '.'] then
    match stack with
    | top :: below =>
      if top = ['.', '.'] then (if rooted then stack else comp :: stack) else below
    | [] => if rooted then stack else [comp]
  else comp :: stack

/-- Elements of a path joined by `/`. -/
def joinSlash : List (List Char) → List Char
  | [] => []
  | [c] => c
  | c :: cs => c ++ '/' :: joinSlash cs

/-- Go `path.Clean` on character lists. -/
def cleanChars (p : List Char) : List Char :=
  if p = [] then ['.']
  else
    let rooted : Bool := p.head? = some '/'
    let kept := ((splitChars '/' p).foldl (cleanStep rooted) []).reverse
    let body := joinSlash kept
    if rooted then '/' :: body
    else if body = [] then ['.'] else body

/-- Go `path.Clean`. -/
def pathClean (p : String) : String := String.mk (cleanChars p.data)

/-- Go `path.Join`: the elements from the first non-empty one on, joined by
`/` and cleaned; the empty string when all are empty. -/
def pathJoin : List String → String
  | [] => ""
  | e :: es => if e ≠ "" then pathClean (String.intercalate "/" (e :: es)) else pathJoin es

/-- Trailing slashes removed (first loop of `path.Base`). -/
def stripTrailingSlashes (p : List Char) : List Char :=
  (p.reverse.dropWhile (fun c => c = '/')).reverse

/-- Go `path.Base` on character lists. -/
def baseChars (p : List Char) : List Char :=
  if p = [] then ['.']
  else
    let q := stripTrailingSlashes p
    let last := (splitChars '/' q).getLast?.getD []
    if last = [] then ['/'] else last

/-- Go `path.Base`. -/
def pathBase (p : String) : String := String.mk (baseChars p.data)

/-! ## `etcdq/package.go` -/

/-- The type `JobState` is a Go string type. -/
abbrev JobState := String

def JobStateQueued : JobState := "QUEUED"
def JobStateStarted : JobState := "STARTED"
def JobStateFinished : JobState := "FINISHED"

def PathWorkers : String := "/workers"
def PathJobs : String := "/jobs"

/-- The type `Signal` is a Go string type. -/
abbrev Signal := String

def SignalStop : Signal := "STOP"
def SignalSave : Signal := "SAVE"
def SignalJobDone : Signal := "JOB_DONE"
def SignalOK : Signal := "OK"

def StatusAlive : String := "ALIVE"
def StatusDead : String := "DEAD"

def JobKey (id : String) : String := pathJoin [PathJobs, id]

def WorkerKey (id : String) : String := pathJoin [PathWorkers, id]

/-- The fields of `docker.PullImageOptions` that the code sets
(`OutputStream` is always `ioutil.Discard`). -/
structure PullImageOptions where
  Repository : String
  Registry : String
  Tag : String
deriving DecidableEq, Repr

/-- Source: `parsePullImageOptions`. -/
def parsePullImageOptions (image : String) : PullImageOptions :=
  let split := stringsSplitN2 image '/'
  let host : String := if split.length = 1 then "" else split.headD ""
  let split2 : List String :=
    if split.length = 1 then stringsSplit (split.headD "") ':'
    else stringsSplit (split.getD 1 "") ':'
  let repo := split2.headD ""
  let tag := if split2.length > 1 then split2.getD 1 "" else "latest"
  { Registry := "", Repository := pathJoin [host, repo], Tag := tag }

/-! ## `etcdq/types.go` and the external types it mentions -/

/-- A Go `error` value: an `etcd.EtcdError` with its code, or any other error. -/
inductive GoError where
  | etcd (code : Int) (message : String)
  | other (message : String)
deriving DecidableEq, Repr

/-- Go `err.Error()`. -/
def GoError.Error : GoError → String
  | .etcd _ m => m
  | .other m => m

/-- Outcome of running Go code that may panic (nil dereference, index out of
range) instead of returning. -/
inductive Exec (α : Type) where
  | panic (msg : String)
  | ret (a : α)
deriving Repr

/-- The fields of `docker.Config` that the code reads or writes; `Volumes`
is a Go set `map[string]struct{}`. -/
structure Config where
  Image : String
  Cmd : List String
  WorkingDir : String
  Volumes : List String
deriving DecidableEq, Repr

/-- The fields of `docker.Container` that the code reads or writes. -/
structure Container where
  ID : String
  Config : Option Config
deriving DecidableEq, Repr

/-- The field of `docker.APIImages` that the code reads. -/
structure APIImages where
  RepoTags : List String
deriving DecidableEq, Repr

/-- The fields of `etcd.Node` that the code reads. -/
structure Node where
  Key : String
  Value : String
  ModifiedIndex : Nat
deriving DecidableEq, Repr

structure WorkerConfig where
  AwsAccessKey : String
  AwsSecretKey : String
  AwsRegion : String
  S3Bucket : String
  Workspace : String
  EarthkitImg : String
  DataDir : String
deriving DecidableEq, Repr

structure Fileset where
  Name : String
  Patterns : List String
deriving DecidableEq, Repr

structure JobFileset where
  Input : Option Fileset
  Output : Option Fileset
deriving DecidableEq, Repr

/-- Entry of `Job.States`; `Date` is a clock reading. -/
structure State where
  State : JobState
  Step : String
  Date : Nat
deriving DecidableEq, Repr

structure JobResult where
  Status : String
  Info : String
deriving DecidableEq, Repr

/-- The struct `Job`.  Pointer fields are `Option`s (`none` is Go `nil`).  The
back-reference `worker` is not a field here: the functions of the pipeline
take the owning worker's configuration as an argument. -/
structure Job where
  Container : Option Container
  Fileset : Option JobFileset
  Owner : String
  States : List State
  Result : Option JobResult
  id : String
deriving DecidableEq, Repr

/-- The struct `Worker`, without `Stats` (never written after construction),
the client handles and the tick rates. -/
structure Worker where
  Name : String
  InstanceId : String
  PrivateIp : String
  PublicIp : String
  Job : Int
  Heartbeat : Nat
  Status : String
  Id : String
  currentJob : Option Etcdq.Job
  config : WorkerConfig
deriving DecidableEq, Repr

/-! ## The environment -/

/-- A call made to etcd or docker, with its arguments. -/
inductive Call where
  | get (key : String) (sort recursive : Bool)
  | set (key value : String) (ttl : Nat)
  | compareAndSwap (key value : String) (ttl : Nat) (prevValue : String) (prevIndex : Nat)
  | listImages (all : Bool)
  | pullImage (opts : PullImageOptions)
  | createContainer (config : Config)
  | startContainer (id : String) (binds : List String)
  | waitContainer (id : String)
  | removeContainer (id : String) (removeVolumes : Bool)
deriving DecidableEq, Repr

/-- Everything outside the repository: the clock, `encoding/json`,
`fmt.Sprintf` with a computed format string, the order in which `range`
visits a map, and the etcd and docker clients acting on a state `ω`. -/
structure World (ω : Type) where
  now : ω → Nat × ω
  unmarshalJob : String → Except GoError Job
  marshalJob : Job → Except GoError String
  marshalWorker : Worker → Except GoError String
  sprintf : String → List String → String
  rangeReversed : Bool
  etcdGet : ω → String → Bool → Bool → Except GoError (List Node) × ω
  etcdSet : ω → String → String → Nat → Option GoError × ω
  etcdCompareAndSwap : ω → String → String → Nat → String → Nat → Option GoError × ω
  dockerListImages : ω → Bool → Except GoError (List APIImages) × ω
  dockerPullImage : ω → PullImageOptions → Option GoError × ω
  dockerCreateContainer : ω → Config → Except GoError Container × ω
  dockerStartContainer : ω → String → List String → Option GoError × ω
  dockerWaitContainer : ω → String → (Int × Option GoError) × ω
  dockerRemoveContainer : ω → String → Bool → Option GoError × ω

/-- State threaded through the code: the environment's state, the calls made
so far, the Job values whose encodings were handed to `CompareAndSwap` or
`Set` so far, and the signals sent on `worker.signals` so far. -/
structure Sys (ω : Type) where
  world : ω
  calls : List Call
  docs : List Job
  sent : List Signal

/-- The state after a call `c` that left the environment in state `w`. -/
def Sys.record {ω : Type} (s : Sys ω) (w : ω) (c : Call) : Sys ω :=
  { s with world := w, calls := s.calls ++ [c] }

/-- The state after a call `c` that carried the encoding of `doc`. -/
def Sys.recordDoc {ω : Type} (s : Sys ω) (w : ω) (c : Call) (doc : Job) : Sys ω :=
  { s with world := w, calls := s.calls ++ [c], docs := s.docs ++ [doc] }

/-! ## `etcdq/job.go` -/

/-- Source: `Job.setState`; `now` is the reading of `time.Now()`. -/
def Job.setState (job : Job) (jobState : JobState) (step : String) (now : Nat) : Job :=
  { job with States := job.States ++ [{ State := jobState, Step := step, Date := now }] }

/-- Source: `Job.save`.  A failure to encode or to write is logged only. -/
def Job.save {ω : Type} (W : World ω) (job : Job) (s : Sys ω) : Sys ω :=
  match W.marshalJob job with
  | .error _ => s
  | .ok value =>
    let key := JobKey job.id
    let r := W.etcdSet s.world key value 0
    s.recordDoc r.2 (Call.set key value 0) job

/-- Source: `Job.finish`. -/
def Job.finish {ω : Type} (W : World ω) (job : Job) (result : JobResult) (s : Sys ω) :
    Job × Sys ω :=
  let job1 := { job with Result := some result }
  let t := W.now s.world
  let job2 := job1.setState JobStateFinished "" t.1
  let s1 := Job.save W job2 { s with world := t.2 }
  (job2, { s1 with sent := s1.sent ++ [SignalJobDone] })

/-- Go `map[string]PullImageOptions` as an association list with distinct keys. -/
abbrev ImageMap := List (String × PullImageOptions)

/-- Go `m[key] = opts`. -/
def mapInsert (m : ImageMap) (key : String) (opts : PullImageOptions) : ImageMap :=
  if m.any (fun e => e.1 = key) then m.map (fun e => if e.1 = key then (key, opts) else e)
  else m ++ [(key, opts)]

/-- Go `delete(m, key)`. -/
def mapDelete (m : ImageMap) (key : String) : ImageMap :=
  m.filter (fun e => e.1 ≠ key)

/-- The last loop of `pullImages`, over the entries in the order `range`
visits them. -/
def pullLoop {ω : Type} (W : World ω) :
    List (String × PullImageOptions) → Job → Sys ω → Option GoError × Job × Sys ω
  | [], job, s => (none, job, s)
  | (imageName, opts) :: rest, job, s =>
    let t := W.now s.world
    let job1 := job.setState JobStateStarted ("Pulling docker image: " ++ imageName) t.1
    let r := W.dockerPullImage t.2 opts
    let s1 := s.record r.2 (Call.pullImage opts)
    match r.1 with
    | some e => (some e, job1, s1)
    | none => pullLoop W rest job1 s1

/-- Source: `Job.pullImages`. -/
def Job.pullImages {ω : Type} (W : World ω) (cfg : WorkerConfig) (job : Job) (s : Sys ω) :
    Exec (Option GoError × Job × Sys ω) :=
  let opts := parsePullImageOptions cfg.EarthkitImg
  let key := opts.Repository ++ ":" ++ opts.Tag
  let m1 := mapInsert [] key opts
  match job.Container with
  | none => .panic "nil pointer dereference"
  | some c =>
    match c.Config with
    | none => .panic "nil pointer dereference"
    | some conf =>
      let opts2 := parsePullImageOptions conf.Image
      let key2 := opts2.Repository ++ ":" ++ opts2.Tag
      let m2 := mapInsert m1 key2 opts2
      let r := W.dockerListImages s.world false
      let s1 := s.record r.2 (Call.listImages false)
      match r.1 with
      | .error e => .ret (some e, job, s1)
      | .ok existingImages =>
        let names := existingImages.flatMap (fun apiImage => apiImage.RepoTags)
        let m3 := names.foldl mapDelete m2
        .ret (pullLoop W (if W.rangeReversed then m3.reverse else m3) job s1)

/-- The error made from a non-zero exit code:
`fmt.Errorf("Error return code from container: %d", code)`. -/
def exitCodeError (code : Int) : GoError :=
  .other ("Error return code from container: " ++ toString code)

/-- Source: `Job.pullData`. -/
def Job.pullData {ω : Type} (W : World ω) (cfg : WorkerConfig) (job : Job) (s : Sys ω) :
    Exec (Option GoError × Job × Sys ω) :=
  match job.Fileset with
  | none => .panic "nil pointer dereference"
  | some fs =>
    match fs.Input with
    | none => .panic "nil pointer dereference"
    | some input =>
      let fileset := input.Name
      let vol := "/workspaces"
      let vols := [vol]
      let cmd0 :=
        "/bin/earthkit-cli -aws_access_key %s -aws_secret_key %s -aws_region %s -s3_bucket %s clone %s"
      let cmd1 := if fileset.length > 0 then cmd0 ++ " " ++ fileset else cmd0
      let cmd := W.sprintf cmd1
        [cfg.AwsAccessKey, cfg.AwsSecretKey, cfg.AwsRegion, cfg.S3Bucket, cfg.Workspace]
      let config : Config :=
        { Image := cfg.EarthkitImg, WorkingDir := vol, Cmd := stringsSplit cmd ' ', Volumes := vols }
      let rc := W.dockerCreateContainer s.world config
      let s1 := s.record rc.2 (Call.createContainer config)
      match rc.1 with
      | .error e => .ret (some e, job, s1)
      | .ok container =>
        let binds := [cfg.DataDir ++ vol ++ ":" ++ vol ++ ":rw"]
        let rs := W.dockerStartContainer s1.world container.ID binds
        let s2 := s1.record rs.2 (Call.startContainer container.ID binds)
        match rs.1 with
        | some e => .ret (some e, job, s2)
        | none =>
          let friendlyFileset := if fileset.length = 0 then "latest" else fileset
          let t := W.now s2.world
          let job1 := job.setState JobStateStarted ("Pulling fileset: " ++ friendlyFileset) t.1
          let s3 := Job.save W job1 { s2 with world := t.2 }
          let rw := W.dockerWaitContainer s3.world container.ID
          let s4 := s3.record rw.2 (Call.waitContainer container.ID)
          match rw.1.2 with
          | none => .ret (none, job1, s4)
          | some _ =>
            if rw.1.1 ≠ 0 then .ret (some (exitCodeError rw.1.1), job1, s4)
            else
              let rr := W.dockerRemoveContainer s4.world container.ID false
              .ret (rr.1, job1, s4.record rr.2 (Call.removeContainer container.ID false))

/-- Source: `Job.runContainer`. -/
def Job.runContainer {ω : Type} (W : World ω) (cfg : WorkerConfig) (job : Job) (s : Sys ω) :
    Exec (Option GoError × Job × Sys ω) :=
  let workspace := cfg.Workspace
  let vol := "/workspaces"
  let vols := [vol]
  match job.Container with
  | none => .panic "nil pointer dereference"
  | some c =>
    match c.Config with
    | none => .panic "nil pointer dereference"
    | some conf =>
      let config : Config :=
        { conf with WorkingDir := pathJoin [vol, workspace, conf.WorkingDir], Volumes := vols }
      let job0 := { job with Container := some { c with Config := some config } }
      let rc := W.dockerCreateContainer s.world config
      let s1 := s.record rc.2 (Call.createContainer config)
      match rc.1 with
      | .error e => .ret (some e, job0, s1)
      | .ok container =>
        let job1 := { job0 with Container := some { container with Config := some config } }
        let binds := [pathJoin [cfg.DataDir, vol] ++ ":" ++ vol ++ ":rw"]
        let rs := W.dockerStartContainer s1.world container.ID binds
        let s2 := s1.record rs.2 (Call.startContainer container.ID binds)
        match rs.1 with
        | some e => .ret (some e, job1, s2)
        | none =>
          let t := W.now s2.world
          let job2 := job1.setState JobStateStarted "RUNNING" t.1
          let s3 := Job.save W job2 { s2 with world := t.2 }
          let rw := W.dockerWaitContainer s3.world container.ID
          let s4 := s3.record rw.2 (Call.waitContainer container.ID)
          match rw.1.2 with
          | none => .ret (none, job2, s4)
          | some e =>
            if rw.1.1 ≠ 0 then .ret (some (exitCodeError rw.1.1), job2, s4)
            else .ret (some e, job2, s4)

/-- Source: `Job.pushData`. -/
def Job.pushData {ω : Type} (W : World ω) (cfg : WorkerConfig) (job : Job) (s : Sys ω) :
    Exec (Option GoError × Job × Sys ω) :=
  let vol := "/workspaces"
  let vols := [vol]
  let cmd0 :=
    "/bin/earthkit-cli -aws_access_key %s -aws_secret_key %s -aws_region %s -s3_bucket %s push %s"
  match job.Fileset with
  | none => .panic "nil pointer dereference"
  | some fs =>
    match fs.Output with
    | none => .ret (none, job, s)
    | some output =>
      if output.Name.length = 0 then .ret (none, job, s)
      else
        let fileset := output.Name
        let cmd := W.sprintf cmd0
          [cfg.AwsAccessKey, cfg.AwsSecretKey, cfg.AwsRegion, cfg.S3Bucket, fileset]
        let config : Config :=
          { Image := cfg.EarthkitImg, WorkingDir := pathJoin [vol, cfg.Workspace],
            Cmd := stringsSplit cmd ' ', Volumes := vols }
        let rc := W.dockerCreateContainer s.world config
        let s1 := s.record rc.2 (Call.createContainer config)
        match rc.1 with
        | .error e => .ret (some e, job, s1)
        | .ok container =>
          let binds := [cfg.DataDir ++ vol ++ ":" ++ vol ++ ":rw"]
          let rs := W.dockerStartContainer s1.world container.ID binds
          let s2 := s1.record rs.2 (Call.startContainer container.ID binds)
          match rs.1 with
          | some e => .ret (some e, job, s2)
          | none =>
            let t := W.now s2.world
            let job1 := job.setState JobStateStarted ("Pushing fileset: " ++ fileset) t.1
            let s3 := Job.save W job1 { s2 with world := t.2 }
            let rw := W.dockerWaitContainer s3.world container.ID
            let s4 := s3.record rw.2 (Call.waitContainer container.ID)
            match rw.1.2 with
            | none => .ret (none, job1, s4)
            | some _ =>
              if rw.1.1 ≠ 0 then .ret (some (exitCodeError rw.1.1), job1, s4)
              else
                let rr := W.dockerRemoveContainer s4.world container.ID false
                .ret (rr.1, job1, s4.record rr.2 (Call.removeContainer container.ID false))

/-- Source: `Job.start`, the pipeline driver.  It returns the job as it
stands when the driver ends. -/
def Job.start {ω : Type} (W : World ω) (cfg : WorkerConfig) (job : Job) (s : Sys ω) :
    Exec (Job × Sys ω) :=
  match Job.pullImages W cfg job s with
  | .panic m => .panic m
  | .ret (some e, job1, s1) => .ret (Job.finish W job1 { Status := "FAILURE", Info := e.Error } s1)
  | .ret (none, job1, s1) =>
    match Job.pullData W cfg job1 s1 with
    | .panic m => .panic m
    | .ret (some e, job2, s2) =>
      .ret (Job.finish W job2 { Status := "FAILURE", Info := e.Error } s2)
    | .ret (none, job2, s2) =>
      match Job.runContainer W cfg job2 s2 with
      | .panic m => .panic m
      | .ret (some e, job3, s3) =>
        .ret (Job.finish W job3 { Status := "FAILURE", Info := e.Error } s3)
      | .ret (none, job3, s3) =>
        match Job.pushData W cfg job3 s3 with
        | .panic m => .panic m
        | .ret (some e, job4, s4) =>
          .ret (Job.finish W job4 { Status := "FAILURE", Info := e.Error } s4)
        | .ret (none, job4, s4) =>
          .ret (Job.finish W job4 { Status := "SUCCESS", Info := "" } s4)

/-! ## `etcdq/worker.go` -/

/-- Source: `Worker.save`. -/
def Worker.save {ω : Type} (W : World ω) (worker : Worker) (s : Sys ω) :
    Option GoError × Sys ω :=
  match W.marshalWorker worker with
  | .error e => (some e, s)
  | .ok value =>
    let key := pathJoin [PathWorkers, worker.Id]
    let r := W.etcdSet s.world key value 0
    (r.1, s.record r.2 (Call.set key value 0))

/-- Source: `Worker.tryAllocateJob`.  The result is the pair `(job, err)`. -/
def Worker.tryAllocateJob {ω : Type} (W : World ω) (worker : Worker) (node : Node)
    (s : Sys ω) : Exec ((Option Etcdq.Job × Option GoError) × Sys ω) :=
  match W.unmarshalJob node.Value with
  | .error e => .ret ((none, some e), s)
  | .ok j =>
    match j.States.getLast? with
    | none => .panic "index out of range"
    | some state =>
      if state.State ≠ JobStateQueued then .ret ((none, none), s)
      else
        let t := W.now s.world
        let job1 := j.setState JobStateStarted "Allocated" t.1
        let job2 := { job1 with Owner := worker.Id, id := pathBase node.Key }
        match W.marshalJob job2 with
        | .error e => .ret ((none, some e), { s with world := t.2 })
        | .ok b =>
          let r := W.etcdCompareAndSwap t.2 node.Key b 0 "" node.ModifiedIndex
          let s1 := s.recordDoc r.2 (Call.compareAndSwap node.Key b 0 "" node.ModifiedIndex) job2
          match r.1 with
          | none => .ret ((some job2, none), s1)
          | some (.etcd code m) =>
            if code = 101 then .ret ((none, none), s1)
            else .ret ((none, some (.etcd code m)), s1)
          | some e => .ret ((none, some e), s1)

/-- The loop of `Worker.poll` over the children of `/jobs`: the job to
start, if any.  An error from `tryAllocateJob` ends the poll. -/
def Worker.pollLoop {ω : Type} (W : World ω) (worker : Worker) :
    List Node → Sys ω → Exec (Option Etcdq.Job × Sys ω)
  | [], s => .ret (none, s)
  | node :: rest, s =>
    match Worker.tryAllocateJob W worker node s with
    | .panic m => .panic m
    | .ret ((_, some _), s1) => .ret (none, s1)
    | .ret ((some job, none), s1) => .ret (some job, s1)
    | .ret ((none, none), s1) => Worker.pollLoop W worker rest s1

/-- Source: `Worker.poll`.  The worker afterwards, and the job whose
driver `go job.start()` was spawned, if any. -/
def Worker.poll {ω : Type} (W : World ω) (worker : Worker) (s : Sys ω) :
    Exec (Worker × Option Etcdq.Job × Sys ω) :=
  let r := W.etcdGet s.world PathJobs true false
  let s0 := s.record r.2 (Call.get PathJobs true false)
  match r.1 with
  | .error _ => .ret (worker, none, s0)
  | .ok nodes =>
    match Worker.pollLoop W worker nodes s0 with
    | .panic m => .panic m
    | .ret (none, s1) => .ret (worker, none, s1)
    | .ret (some job, s1) => .ret ({ worker with currentJob := some job }, some job, s1)

/-- What the `select` of `Worker.Start` receives. -/
inductive Event where
  | signal (sig : Signal)
  | heartbeat (now : Nat)
  | pollTick
deriving DecidableEq, Repr

/-- One iteration of the loop of `Worker.Start` on the received event: the
worker, `stayAlive`, and the job whose driver was spawned, if any. -/
def Worker.handle {ω : Type} (W : World ω) (worker : Worker) (ev : Event) (s : Sys ω) :
    Exec (Worker × Bool × Option Etcdq.Job × Sys ω) :=
  match ev with
  | .signal sig =>
    if sig = SignalSave then .ret (worker, true, none, (Worker.save W worker s).2)
    else if sig = SignalJobDone then
      let worker1 := { worker with Job := 0, currentJob := none }
      .ret (worker1, true, none, (Worker.save W worker1 s).2)
    else .ret (worker, false, none, s)
  | .heartbeat now =>
    let worker1 := { worker with Heartbeat := now }
    .ret (worker1, true, none, (Worker.save W worker1 s).2)
  | .pollTick =>
    match worker.currentJob with
    | some _ => .ret (worker, true, none, s)
    | none =>
      match Worker.poll W worker s with
      | .panic m => .panic m
      | .ret (worker1, spawned, s1) => .ret (worker1, true, spawned, s1)

/-! ## A versioned key-value store and racing workers -/

/-- Modelled from the spec: the nodes held by the KV store (the etcd server,
reached through the go-etcd client; neither is in the repository). -/
abbrev Store := List Node

/-- The node stored under `key`, if any. -/
def Store.lookup (st : Store) (key : String) : Option Node :=
  st.find? (fun n => n.Key = key)

/-- Modelled from the spec: `cas_set(key, new_value, prev_mod_index)` succeeds
only if the node's modification index is unchanged.  A success stores the new
value under a larger modification index; a mismatch is error 101 and a missing
key error 100, both leaving the store as it was. -/
def Store.compareAndSwap (st : Store) (key value : String) (prevIndex : Nat) :
    Option GoError × Store :=
  match st.lookup key with
  | none => (some (.etcd 100 "Key not found"), st)
  | some n =>
    if n.ModifiedIndex = prevIndex then
      (none, st.map (fun m =>
        if m.Key = key then { m with Value := value, ModifiedIndex := n.ModifiedIndex + 1 }
        else m))
    else (some (.etcd 101 "Compare failed"), st)

/-- Workers that each hold the same observed `node` run `tryAllocateJob` one
after the other, in list order, against the shared environment.  The single
store access of `tryAllocateJob` is its `CompareAndSwap`, so every interleaving
of concurrent runs is one such order.  The result lists what each worker got. -/
def race {ω : Type} (W : World ω) (node : Node) :
    List Worker → Sys ω → List (Exec (Option Job × Option GoError)) × Sys ω
  | [], s => ([], s)
  | w :: ws, s =>
    match Worker.tryAllocateJob W w node s with
    | .panic m => ((.panic m) :: (race W node ws s).1, (race W node ws s).2)
    | .ret (res, s1) => ((.ret res) :: (race W node ws s1).1, (race W node ws s1).2)

/-- The Job value a worker submits when it claims the parsed job `j` of
`node` at clock reading `now`. -/
def claimOf (worker : Worker) (node : Node) (j : Job) (now : Nat) : Job :=
  { j with
    States := j.States ++ [{ State := JobStateStarted, Step := "Allocated", Date := now }],
    Owner := worker.Id, id := pathBase node.Key }

/-! ## Sample data -/

/-- The container configuration of a submitted job. -/
def sampleImageConfig : Config :=
  { Image := "ubuntu", Cmd := ["/bin/bash", "-c", "echo x > y"], WorkingDir := "", Volumes := [] }

/-- A job document as `submit` writes it. -/
def sampleJob : Job :=
  { Container := some { ID := "", Config := some sampleImageConfig },
    Fileset := some { Input := some { Name := "hello", Patterns := [] },
                      Output := some { Name := "hello_out", Patterns := [] } },
    Owner := "", States := [{ State := "QUEUED", Step := "", Date := 0 }],
    Result := none, id := "" }

def sampleConfig : WorkerConfig :=
  { AwsAccessKey := "ak", AwsSecretKey := "sk", AwsRegion := "us-west-1", S3Bucket := "bucket",
    Workspace := "ws", EarthkitImg := "earthkit", DataDir := "/tmp" }

def sampleWorker (id : String) : Worker :=
  { Name := "worker", InstanceId := id, PrivateIp := "local-ipv4", PublicIp := "public-ipv4",
    Job := 0, Heartbeat := 0, Status := StatusAlive, Id := id, currentJob := none,
    config := sampleConfig }

/-- An environment over the versioned store in which the value `queued`
decodes to `sampleJob` and nothing else decodes, every encoding succeeds,
both images are present and every docker call succeeds with exit code 0. -/
def sampleWorld : World Store :=
  { now := fun st => (7, st)
    unmarshalJob := fun v =>
      if v = "queued" then .ok sampleJob else .error (.other "invalid character")
    marshalJob := fun j => .ok ("job by " ++ j.Owner)
    marshalWorker := fun w => .ok ("worker " ++ w.Id)
    sprintf := fun format _ => format
    rangeReversed := false
    etcdGet := fun st _ _ _ => (.ok st, st)
    etcdSet := fun st _ _ _ => (none, st)
    etcdCompareAndSwap := fun st k v _ _ i => Store.compareAndSwap st k v i
    dockerListImages := fun st _ =>
      (.ok [{ RepoTags := ["ubuntu:latest"] }, { RepoTags := ["earthkit:latest"] }], st)
    dockerPullImage := fun st _ => (none, st)
    dockerCreateContainer := fun st _ => (.ok { ID := "c1", Config := none }, st)
    dockerStartContainer := fun st _ _ => (none, st)
    dockerWaitContainer := fun st _ => ((0, none), st)
    dockerRemoveContainer := fun st _ _ => (none, st) }

def sampleNode : Node := { Key := "/jobs/17", Value := "queued", ModifiedIndex := 4 }

def sampleSys : Sys Store := { world := [sampleNode], calls := [], docs := [], sent := [] }

/-! ## Names in image references -/

/-- A path element that `path.Clean` keeps as it is. -/
def PlainElement (l : List Char) : Prop :=
  l ≠ [] ∧ '/' ∉ l ∧ l ≠ ['.'] ∧ l ≠ ['.', '.']

/-- A plain name: not empty, without `/`, and neither `.` nor `..`. -/
def PlainName (s : String) : Prop :=
  s ≠ "" ∧ '/' ∉ s.data ∧ s ≠ "." ∧ s ≠ ".."

/-! ## Sample runs -/

/-- What a run returned, or `none` when it panicked. -/
def Exec.toOption {α : Type} : Exec α → Option α
  | .panic _ => none
  | .ret a => some a

/-- The job `sampleJob` as worker `a` holds it after claiming `sampleNode`. -/
def sampleAllocated : Job := claimOf (sampleWorker "a") sampleNode sampleJob 7

/-- The environment `sampleWorld`, except that containers are named after
their image and the wait on the user container (image `ubuntu`) returns exit
code 2 with no error. -/
def exitTwoWorld : World Store :=
  { sampleWorld with
    dockerCreateContainer := fun st c => (.ok { ID := "c-" ++ c.Image, Config := none }, st)
    dockerWaitContainer := fun st id =>
      if id = "c-ubuntu" then ((2, none), st) else ((0, none), st) }

/-- A child of `/jobs` whose value is not a JSON document. -/
def garbageNode : Node := { Key := "/jobs/16", Value := "not json", ModifiedIndex := 3 }

/-! ## Reading the scan of `/jobs` -/

/-- Whether the value of `n` decodes to a job whose last state is QUEUED. -/
def lastQueued {ω : Type} (W : World ω) (n : Node) : Bool :=
  match W.unmarshalJob n.Value with
  | .ok j =>
    match j.States.getLast? with
    | some st => decide (st.State = JobStateQueued)
    | none => false
  | .error _ => false

/-- The key and previous index of every `CompareAndSwap` among `calls`. -/
def casAttempts (calls : List Call) : List (String × Nat) :=
  calls.filterMap (fun c =>
    match c with
    | .compareAndSwap k _ _ _ i => some (k, i)
    | _ => none)

/-- Whether `n` is a queued node whose `CompareAndSwap` is assigned success. -/
def claimable {ω : Type} (W : World ω) (outcome : String → Nat → Bool) (n : Node) : Bool :=
  lastQueued W n && outcome n.Key n.ModifiedIndex

/-- The environment `sampleWorld`, except that the value `running` decodes
to an allocated job, and `CompareAndSwap` succeeds exactly when the previous
index is 4 and meets error 101 otherwise. -/
def scanWorld : World Store :=
  { sampleWorld with
    unmarshalJob := fun v =>
      if v = "queued" then .ok sampleJob
      else if v = "running" then .ok sampleAllocated
      else .error (.other "invalid character")
    etcdCompareAndSwap := fun st _ _ _ _ i =>
      (if i = 4 then none else some (.etcd 101 "Compare failed"), st) }

/-- Children of `/jobs`: a running job, a queued job that another worker
takes first, and two queued jobs that can be claimed. -/
def scanNodes : List Node :=
  [{ Key := "/jobs/15", Value := "running", ModifiedIndex := 9 },
   { Key := "/jobs/16", Value := "queued", ModifiedIndex := 3 },
   { Key := "/jobs/17", Value := "queued", ModifiedIndex := 4 },
   { Key := "/jobs/18", Value := "queued", ModifiedIndex := 4 }]

def scanSys : Sys Store := { world := scanNodes, calls := [], docs := [], sent := [] }

/-! ## Reading the pipeline -/

/-- The name `repo:tag` under which `pullImages` looks an image up. -/
def imageKey (image : String) : String :=
  (parsePullImageOptions image).Repository ++ ":" ++ (parsePullImageOptions image).Tag

/-- Every call to create, start or remove a container succeeds and every
wait returns exit code 0 without error. -/
structure ContainersSucceed {ω : Type} (W : World ω) : Prop where
  create : ∀ w c, ∃ k, (W.dockerCreateContainer w c).1 = .ok k
  start : ∀ w id binds, (W.dockerStartContainer w id binds).1 = none
  wait : ∀ w id, (W.dockerWaitContainer w id).1 = (0, none)
  remove : ∀ w id v, (W.dockerRemoveContainer w id v).1 = none

/-- The images `a` and `b` are both among the local images, whenever they are listed. -/
def ImagesLocal {ω : Type} (W : World ω) (a b : String) : Prop :=
  ∀ w, ∃ images, (W.dockerListImages w false).1 = .ok images ∧
    imageKey a ∈ images.flatMap (fun i => i.RepoTags) ∧
    imageKey b ∈ images.flatMap (fun i => i.RepoTags)

/-! ## What a stage of the pipeline may do -/

/-- Whether a step text starts with `Pushing fileset`. -/
def isPushingStep (step : String) : Bool :=
  "Pushing fileset".data.isPrefixOf step.data

/-- The effect of one stage on the job and on the written values: the stage
appends STARTED entries whose steps satisfy `P`, keeps the fileset, the id and
a configured container, writes at most one value (the job as the stage leaves
it), and sends no signal. -/
structure Stage {ω : Type} (P : String → Prop) (job : Job) (s : Sys ω) (job' : Job)
    (s' : Sys ω) : Prop where
  states : ∃ added, job'.States = job.States ++ added ∧
    ∀ x ∈ added, x.State = JobStateStarted ∧ P x.Step
  fileset : job'.Fileset = job.Fileset
  id : job'.id = job.id
  container : ∀ c conf, job.Container = some c → c.Config = some conf →
    ∃ c' conf', job'.Container = some c' ∧ c'.Config = some conf'
  docs : s'.docs = s.docs ∨ s'.docs = s.docs ++ [job']
  sent : s'.sent = s.sent

/-- The written values `docs` form a history from `base` up to `states`: the
`States` of each value extend those of the value written before it, and all
lie between `base` and `states`. -/
def Hist (base states : List State) (docs : List Job) : Prop :=
  List.Chain' (fun a b : Job => a.States <+: b.States) docs ∧ base <+: states ∧
    ∀ d ∈ docs, base <+: d.States ∧ d.States <+: states

/-- The effect of a run of stages: STARTED entries are appended, the written
values are kept and stay a history up to the job's `States`, and no signal is
sent. -/
structure Progress {ω : Type} (job : Job) (s : Sys ω) (job' : Job) (s' : Sys ω) : Prop where
  states : ∃ mid, job'.States = job.States ++ mid ∧ ∀ x ∈ mid, x.State = JobStateStarted
  hist : ∀ base, Hist base job.States s.docs → Hist base job'.States s'.docs
  grow : s.docs <+: s'.docs
  sent : s'.sent = s.sent

/-- How a run of the pipeline driver ends: it returns the job with the
appended STARTED entries `mid` and one final FINISHED entry, a result, the
written values kept and still a history, one `JOB_DONE` sent, and (when every
encoding succeeds) the job as the last written value. -/
def Finished {ω : Type} (W : World ω) (job : Job) (s : Sys ω) (job' : Job) (s' : Sys ω)
    (mid : List State) (t : Nat) (res : JobResult) : Prop :=
  job'.States = job.States ++ mid ++ [{ State := JobStateFinished, Step := "", Date := t }] ∧
    (∀ x ∈ mid, x.State = JobStateStarted) ∧
    job'.Result = some res ∧
    (∀ base, Hist base job.States s.docs → Hist base job'.States s'.docs) ∧
    s.docs <+: s'.docs ∧
    s'.sent = s.sent ++ [SignalJobDone] ∧
    ((∀ j, ∃ b, W.marshalJob j = .ok b) → s'.docs.getLast? = some job')

/-- The three stages before the push all return without error. -/
def EarlierStagesSucceed {ω : Type} (W : World ω) (cfg : WorkerConfig) (job : Job) (s : Sys ω) :
    Prop :=
  ∃ j1 s1 j2 s2 j3 s3, Job.pullImages W cfg job s = .ret (none, j1, s1) ∧
    Job.pullData W cfg j1 s1 = .ret (none, j2, s2) ∧
    Job.runContainer W cfg j2 s2 = .ret (none, j3, s3)

/-- The job `sampleAllocated` without an output fileset. -/
def sampleNoOutput : Job :=
  { sampleAllocated with
    Fileset := some { Input := some { Name := "hello", Patterns := [] }, Output := none } }

/-- What one worker does with one child of `/jobs`: the claim of
`tryAllocateJob` and, when it returns a job, the driver `go job.start()`
that `poll` spawns for it, run to its end.  The result is the job as the
driver leaves it, or `none` when no job was claimed. -/
def Worker.claimAndRun {ω : Type} (W : World ω) (worker : Worker) (node : Node) (s : Sys ω) :
    Exec (Option Etcdq.Job × Sys ω) :=
  match Worker.tryAllocateJob W worker node s with
  | .panic m => .panic m
  | .ret ((_, some _), s1) => .ret (none, s1)
  | .ret ((none, none), s1) => .ret (none, s1)
  | .ret ((some job, none), s1) =>
    match Job.start W worker.config job s1 with
    | .panic m => .panic m
    | .ret (job', s2) => .ret (some job', s2)

/-! ## The event loop as a transition system -/

/-- State of the loop of `Worker.Start`: the worker, `stayAlive`, the
environment as the loop last left it, and the pipeline drivers that were
spawned by `go job.start()` and whose `JOB_DONE` the loop has not received. -/
structure Loop (ω : Type) where
  worker : Worker
  stayAlive : Bool
  sys : Sys ω
  drivers : List Job

/-- The loop as `Worker.Start` enters it: a worker built by `NewWorker` has
no current job, and no driver runs. -/
def Loop.init {ω : Type} (worker : Worker) (sys : Sys ω) : Loop ω :=
  { worker := { worker with currentJob := none }, stayAlive := true, sys := sys, drivers := [] }

/-- One iteration of the loop on event `ev`, taken in the environment `env`
as the concurrently running drivers have left it.  No step is taken once the
loop has exited, or when the code panics; `JOB_DONE` arrives only from a
running driver, which ends with it (the send in `Job.finish` is the driver's
last action and happens once). -/
def Loop.step {ω : Type} (W : World ω) (l : Loop ω) (ev : Event) (env : Sys ω) :
    Option (Loop ω) :=
  if l.stayAlive = false then none
  else if ev = .signal SignalJobDone ∧ l.drivers = [] then none
  else
    match Worker.handle W l.worker ev env with
    | .panic _ => none
    | .ret (worker', alive, spawned, sys') =>
      some { worker := worker', stayAlive := alive, sys := sys',
             drivers := (if ev = .signal SignalJobDone then l.drivers.tail else l.drivers)
               ++ spawned.toList }

/-- The loop after a sequence of events, each with the environment it is
handled in. -/
def Loop.run {ω : Type} (W : World ω) : Loop ω → List (Event × Sys ω) → Option (Loop ω)
  | l, [] => some l
  | l, (ev, env) :: rest =>
    match Loop.step W l ev env with
    | none => none
    | some l' => Loop.run W l' rest

/-- A sequence of events for the sample worker: a poll that claims the
sample job, a heartbeat, a poll while the job runs, the job's `JOB_DONE`, and
a poll that finds the job no longer queued. -/
def sampleEvents : List (Event × Sys Store) :=
  [(.pollTick, sampleSys), (.heartbeat 9, sampleSys), (.pollTick, sampleSys),
   (.signal SignalJobDone, sampleSys),
   (.pollTick, { sampleSys with world := [{ sampleNode with Value := "running" }] })]

/-! ## A stored document without states -/

/-- The job that the JSON document with no members decodes to: every field
has its zero value, so `States` is nil. -/
def emptyJob : Job :=
  { Container := none, Fileset := none, Owner := "", States := [], Result := none, id := "" }

/-- The environment `sampleWorld`, except that the JSON document with no
members decodes to `emptyJob`. -/
def emptyStatesWorld : World Store :=
  { sampleWorld with
    unmarshalJob := fun v =>
      if v = "\x7b\x7d" then .ok emptyJob
      else if v = "queued" then .ok sampleJob
      else .error (.other "invalid character") }

/-- A child of `/jobs` holding the JSON document with no members. -/
def emptyStatesNode : Node := { Key := "/jobs/16", Value := "\x7b\x7d", ModifiedIndex := 3 }

/-! # Theorems -/

theorem tryAllocateJob_queued {ω : Type} (W : World ω) (worker : Worker) (node : Node)
    (s : Sys ω) (j : Job) (q : State) (b : String)
    (hparse : W.unmarshalJob node.Value = .ok j)
    (hlast : j.States.getLast? = some q) (hq : q.State = JobStateQueued)
    (hm : W.marshalJob (claimOf worker node j (W.now s.world).1) = .ok b) :
    Worker.tryAllocateJob W worker node s =
      (let r := W.etcdCompareAndSwap (W.now s.world).2 node.Key b 0 "" node.ModifiedIndex
       let s1 := s.recordDoc r.2 (Call.compareAndSwap node.Key b 0 "" node.ModifiedIndex)
          (claimOf worker node j (W.now s.world).1)
       match r.1 with
       | none => .ret ((some (claimOf worker node j (W.now s.world).1), none), s1)
       | some (.etcd code m) =>
            if code = 101 then .ret ((none, none), s1)
            else .ret ((none, some (.etcd code m)), s1)
       | some e => .ret ((none, some e), s1)) := by
  unfold Worker.tryAllocateJob
  simp only [hparse, hlast, hq, ne_eq, not_true_eq_false, if_false]
  simp only [Job.setState, claimOf] at hm ⊢
  rw [hm]

theorem lookup_after_swap (st : Store) (key value : String) (m : Nat) :
    Store.lookup (st.map (fun n =>
        if n.Key = key then { n with Value := value, ModifiedIndex := m } else n)) key
      = (st.lookup key).map (fun n => { n with Value := value, ModifiedIndex := m }) := by
  induction st with
  | nil => rfl
  | cons n rest ih =>
    unfold Store.lookup at ih ⊢
    by_cases h : n.Key = key
    · simp [List.find?, h]
    · simp [List.find?, h, ih]

theorem tryAllocateJob_loser (W : World Store) (worker : Worker) (node : Node)
    (s : Sys Store) (j : Job) (q : State) (n : Node)
    (hcas : ∀ st k v ttl pv i, W.etcdCompareAndSwap st k v ttl pv i = Store.compareAndSwap st k v i)
    (hnow : ∀ st, (W.now st).2 = st)
    (hparse : W.unmarshalJob node.Value = .ok j)
    (hlast : j.States.getLast? = some q) (hq : q.State = JobStateQueued)
    (hm : ∀ job, ∃ b, W.marshalJob job = .ok b)
    (hn : s.world.lookup node.Key = some n) (hne : n.ModifiedIndex ≠ node.ModifiedIndex) :
    ∃ s1, Worker.tryAllocateJob W worker node s = .ret ((none, none), s1) ∧
      s1.world = s.world := by
  obtain ⟨b, hb⟩ := hm (claimOf worker node j (W.now s.world).1)
  rw [tryAllocateJob_queued W worker node s j q b hparse hlast hq hb]
  simp [hcas, hnow, Store.compareAndSwap, hn, hne, Sys.recordDoc]

theorem race_losers (W : World Store) (node : Node) (j : Job) (q : State)
    (hcas : ∀ st k v ttl pv i, W.etcdCompareAndSwap st k v ttl pv i = Store.compareAndSwap st k v i)
    (hnow : ∀ st, (W.now st).2 = st)
    (hparse : W.unmarshalJob node.Value = .ok j)
    (hlast : j.States.getLast? = some q) (hq : q.State = JobStateQueued)
    (hm : ∀ job, ∃ b, W.marshalJob job = .ok b)
    (ws : List Worker) : ∀ (s : Sys Store) (n : Node),
      s.world.lookup node.Key = some n → n.ModifiedIndex ≠ node.ModifiedIndex →
      (race W node ws s).1 = ws.map (fun _ => .ret (none, none)) ∧
        (race W node ws s).2.world = s.world := by
  induction ws with
  | nil => intro s n _ _; simp [race]
  | cons w ws ih =>
    intro s n hn hne
    obtain ⟨s1, h1, hw⟩ := tryAllocateJob_loser W w node s j q n hcas hnow hparse hlast hq hm hn hne
    have := ih s1 n (by rw [hw]; exact hn) hne
    simp [race, h1, this, hw]

/-- C1 (at-most-one allocation).  Workers `w :: ws` (any number, in any
order) all hold the same observed queued `node`, which is the node the
versioned store currently has under that key, and run `tryAllocateJob`.  The
first to reach the store gets its claim back as the Job; every other worker
gets no Job and no error (its `CompareAndSwap` met error 101), and the store
ends as the winner's `CompareAndSwap` left it: the node holds the winner's
encoding under the next modification index. -/
theorem at_most_one_allocation (W : World Store) (node : Node) (w : Worker)
    (ws : List Worker) (s : Sys Store) (j : Job) (q : State)
    (hcas : ∀ st k v ttl pv i, W.etcdCompareAndSwap st k v ttl pv i = Store.compareAndSwap st k v i)
    (hnow : ∀ st, (W.now st).2 = st)
    (hnode : s.world.lookup node.Key = some node)
    (hparse : W.unmarshalJob node.Value = .ok j)
    (hlast : j.States.getLast? = some q) (hq : q.State = JobStateQueued)
    (hm : ∀ job, ∃ b, W.marshalJob job = .ok b) :
    ∃ b, W.marshalJob (claimOf w node j (W.now s.world).1) = .ok b ∧
      (race W node (w :: ws) s).1 =
        .ret (some (claimOf w node j (W.now s.world).1), none)
          :: ws.map (fun _ => .ret (none, none)) ∧
      (race W node (w :: ws) s).2.world.lookup node.Key =
        some { Key := node.Key, Value := b, ModifiedIndex := node.ModifiedIndex + 1 } ∧
      (race W node (w :: ws) s).2.world =
        (Store.compareAndSwap s.world node.Key b node.ModifiedIndex).2 := by
  obtain ⟨b, hb⟩ := hm (claimOf w node j (W.now s.world).1)
  refine ⟨b, hb, ?_⟩
  have h1 := tryAllocateJob_queued W w node s j q b hparse hlast hq hb
  have hsw : Store.compareAndSwap s.world node.Key b node.ModifiedIndex =
      (none, s.world.map (fun m =>
        if m.Key = node.Key then { m with Value := b, ModifiedIndex := node.ModifiedIndex + 1 }
        else m)) := by
    simp [Store.compareAndSwap, hnode]
  simp only [hcas, hnow, hsw] at h1
  have hl := lookup_after_swap s.world node.Key b (node.ModifiedIndex + 1)
  rw [hnode] at hl
  simp only [Option.map] at hl
  generalize hst : s.world.map (fun m =>
        if m.Key = node.Key then { m with Value := b, ModifiedIndex := node.ModifiedIndex + 1 }
        else m) = st1 at h1 hsw hl
  have hrest := race_losers W node j q hcas hnow hparse hlast hq hm ws
    (s.recordDoc st1 (Call.compareAndSwap node.Key b 0 "" node.ModifiedIndex)
      (claimOf w node j (W.now s.world).1))
    { Key := node.Key, Value := b, ModifiedIndex := node.ModifiedIndex + 1 } hl (by simp)
  simp only [race, h1, hrest, hsw]
  exact ⟨trivial, hl, rfl⟩

theorem at_most_one_allocation_witness :
    (race sampleWorld sampleNode [sampleWorker "a", sampleWorker "b", sampleWorker "c"]
        sampleSys).1 =
      [.ret (some (claimOf (sampleWorker "a") sampleNode sampleJob 7), none),
       .ret (none, none), .ret (none, none)] := by
  obtain ⟨_, _, h, _⟩ := at_most_one_allocation sampleWorld sampleNode (sampleWorker "a")
    [sampleWorker "b", sampleWorker "c"] sampleSys sampleJob
    { State := "QUEUED", Step := "", Date := 0 }
    (fun _ _ _ _ _ _ => rfl) (fun _ => rfl) (by decide) rfl rfl rfl
    (fun job => ⟨"job by " ++ job.Owner, rfl⟩)
  exact h

/-! ## Image references -/

theorem cutFirst_absent (sep : Char) (l : List Char) (h : sep ∉ l) : cutFirst sep l = none := by
  induction l with
  | nil => rfl
  | cons c cs ih =>
    simp only [List.mem_cons, not_or] at h
    have hc : c ≠ sep := fun e => h.1 e.symm
    simp [cutFirst, hc, ih h.2]

theorem cutFirst_append (sep : Char) (a b : List Char) (h : sep ∉ a) :
    cutFirst sep (a ++ sep :: b) = some (a, b) := by
  induction a with
  | nil => simp [cutFirst]
  | cons c cs ih =>
    simp only [List.mem_cons, not_or] at h
    have hc : c ≠ sep := fun e => h.1 e.symm
    simp [cutFirst, hc, ih h.2]

theorem splitChars_absent (sep : Char) (l : List Char) (h : sep ∉ l) :
    splitChars sep l = [l] := by
  induction l with
  | nil => rfl
  | cons c cs ih =>
    simp only [List.mem_cons, not_or] at h
    have hc : c ≠ sep := fun e => h.1 e.symm
    simp [splitChars, hc, ih h.2]

theorem splitChars_append (sep : Char) (a b : List Char) (h : sep ∉ a) :
    splitChars sep (a ++ sep :: b) = a :: splitChars sep b := by
  induction a with
  | nil => simp [splitChars]
  | cons c cs ih =>
    simp only [List.mem_cons, not_or] at h
    have hc : c ≠ sep := fun e => h.1 e.symm
    simp [splitChars, hc, ih h.2]


theorem cleanChars_plain (a : List Char) (ha : PlainElement a) : cleanChars a = a := by
  obtain ⟨h0, hs, h1, h2⟩ := ha
  have hhead : a.head? ≠ some '/' := by
    cases a with
    | nil => simp
    | cons c cs =>
      simp only [List.mem_cons, not_or] at hs
      simpa using fun e => hs.1 e.symm
  simp [cleanChars, h0, splitChars_absent _ _ hs, cleanStep, h1, h2, joinSlash, hhead]

theorem cleanChars_pair (a b : List Char) (ha : PlainElement a) (hb : PlainElement b) :
    cleanChars (a ++ '/' :: b) = a ++ '/' :: b := by
  obtain ⟨h0, hs, h1, h2⟩ := ha
  obtain ⟨g0, gs, g1, g2⟩ := hb
  have hhead : a.head? ≠ some '/' := by
    cases a with
    | nil => exact absurd rfl h0
    | cons c cs =>
      simp only [List.mem_cons, not_or] at hs
      simpa using fun e => hs.1 e.symm
  simp [cleanChars, splitChars_append _ _ _ hs, splitChars_absent _ _ gs, cleanStep, h0, h1, h2,
    g0, g1, g2, joinSlash, hhead]

theorem pathJoin_single (repo : String) (hr : PlainElement repo.data) :
    pathJoin ["", repo] = repo := by
  have hne : repo ≠ "" := by
    intro e; rw [e] at hr; exact hr.1 rfl
  simp [pathJoin, hne, pathClean, String.intercalate, String.intercalate.go,
    cleanChars_plain _ hr]

theorem pathJoin_pair (host repo : String) (hh : PlainElement host.data)
    (hr : PlainElement repo.data) :
    pathJoin [host, repo] = host ++ "/" ++ repo := by
  have hne : host ≠ "" := by
    intro e; rw [e] at hh; exact hh.1 rfl
  simp [pathJoin, hne, pathClean, String.intercalate, String.intercalate.go,
    cleanChars_pair _ _ hh hr]
  apply String.ext
  simp

theorem parse_four (host repo tag : String) (hh : PlainElement host.data)
    (hr : PlainElement repo.data) (hrc : ':' ∉ repo.data) (htc : ':' ∉ tag.data)
    (hts : '/' ∉ tag.data) :
    parsePullImageOptions (host ++ "/" ++ repo ++ ":" ++ tag)
        = { Repository := host ++ "/" ++ repo, Registry := "", Tag := tag } ∧
    parsePullImageOptions (repo ++ ":" ++ tag)
        = { Repository := repo, Registry := "", Tag := tag } ∧
    parsePullImageOptions repo = { Repository := repo, Registry := "", Tag := "latest" } ∧
    parsePullImageOptions (host ++ "/" ++ repo)
        = { Repository := host ++ "/" ++ repo, Registry := "", Tag := "latest" } := by
  have e1 : (host ++ "/" ++ repo ++ ":" ++ tag).data
      = host.data ++ '/' :: (repo.data ++ ':' :: tag.data) := by simp
  have e2 : (repo ++ ":" ++ tag).data = repo.data ++ ':' :: tag.data := by simp
  have e4 : (host ++ "/" ++ repo).data = host.data ++ '/' :: repo.data := by simp
  have hns : '/' ∉ repo.data ++ ':' :: tag.data := by
    simp [hr.2.1, hts]
  refine ⟨?_, ?_, ?_, ?_⟩
  · simp [parsePullImageOptions, stringsSplitN2, stringsSplit, e1, cutFirst_append _ _ _ hh.2.1,
      splitChars_append _ _ _ hrc, splitChars_absent _ _ htc, pathJoin_pair _ _ hh hr]
  · simp [parsePullImageOptions, stringsSplitN2, stringsSplit, e2, cutFirst_absent _ _ hns,
      splitChars_append _ _ _ hrc, splitChars_absent _ _ htc, pathJoin_single _ hr]
  · simp [parsePullImageOptions, stringsSplitN2, stringsSplit, cutFirst_absent _ _ hr.2.1,
      splitChars_absent _ _ hrc, pathJoin_single _ hr]
  · simp [parsePullImageOptions, stringsSplitN2, stringsSplit, e4, cutFirst_append _ _ _ hh.2.1,
      splitChars_absent _ _ hrc, pathJoin_pair _ _ hh hr]


theorem plainElement_of_plainName (s : String) (h : PlainName s) : PlainElement s.data := by
  obtain ⟨h0, hs, h1, h2⟩ := h
  refine ⟨?_, hs, ?_, ?_⟩
  · intro e; exact h0 (String.ext e)
  · intro e; exact h1 (String.ext e)
  · intro e; exact h2 (String.ext e)

/-- C2 (image-reference normalization).  For `host`, `repo`, `tag` that are
non-empty, without `/` and neither `.` nor `..`, with no `:` in `repo` and
`tag`, `parsePullImageOptions` gives Registry `""` in all four cases, and
Repository `host/repo` or `repo` and Tag `tag` or `latest` as the reference
carries a host and a tag or not. -/
theorem parsePullImageOptions_normalizes (host repo tag : String)
    (hh : PlainName host) (hr : PlainName repo) (ht : PlainName tag)
    (hrc : ':' ∉ repo.data) (htc : ':' ∉ tag.data) :
    parsePullImageOptions (host ++ "/" ++ repo ++ ":" ++ tag)
        = { Repository := host ++ "/" ++ repo, Registry := "", Tag := tag } ∧
    parsePullImageOptions (repo ++ ":" ++ tag)
        = { Repository := repo, Registry := "", Tag := tag } ∧
    parsePullImageOptions repo = { Repository := repo, Registry := "", Tag := "latest" } ∧
    parsePullImageOptions (host ++ "/" ++ repo)
        = { Repository := host ++ "/" ++ repo, Registry := "", Tag := "latest" } :=
  parse_four host repo tag (plainElement_of_plainName _ hh) (plainElement_of_plainName _ hr)
    hrc htc ht.2.1

theorem parsePullImageOptions_normalizes_witness :
    parsePullImageOptions "localhost:5000/ubuntu:14.04"
        = { Repository := "localhost:5000/ubuntu", Registry := "", Tag := "14.04" } ∧
    parsePullImageOptions "ubuntu:14.04"
        = { Repository := "ubuntu", Registry := "", Tag := "14.04" } ∧
    parsePullImageOptions "ubuntu" = { Repository := "ubuntu", Registry := "", Tag := "latest" } ∧
    parsePullImageOptions "localhost:5000/ubuntu"
        = { Repository := "localhost:5000/ubuntu", Registry := "", Tag := "latest" } :=
  parsePullImageOptions_normalizes "localhost:5000" "ubuntu" "14.04"
    (by unfold PlainName; decide) (by unfold PlainName; decide) (by unfold PlainName; decide)
    (by decide) (by decide)

/-! ## The pipeline and the scan on sample inputs -/

/-- C3, the code at the failing input: the wait on the user container returns
exit code 2 and no error, `runContainer` returns no error, the push stage
runs, and `Job.start` finishes the job with `SUCCESS`. -/
theorem nonzero_exit_finishes_success :
    (exitTwoWorld.dockerWaitContainer [sampleNode] "c-ubuntu").1 = (2, none) ∧
    (Job.start exitTwoWorld sampleConfig sampleAllocated sampleSys).toOption.map
        (fun r => (r.1.Result, r.1.States.map (fun e => (e.State, e.Step)))) =
      some (some { Status := "SUCCESS", Info := "" },
        [("QUEUED", ""), ("STARTED", "Allocated"), ("STARTED", "Pulling fileset: hello"),
         ("STARTED", "RUNNING"), ("STARTED", "Pushing fileset: hello_out"),
         ("FINISHED", "")]) := by
  decide

/-- C4, the code at the failing input: with an undecodable node before a
queued one, `poll` makes no `CompareAndSwap` and leaves `currentJob` nil,
although the same poll without the undecodable node claims the queued job. -/
theorem unparsable_node_ends_poll :
    (Worker.poll sampleWorld (sampleWorker "a")
        { world := [garbageNode, sampleNode], calls := [], docs := [], sent := [] }).toOption.map
        (fun r => (r.1.currentJob, r.2.1, r.2.2.calls)) =
      some (none, none, [Call.get "/jobs" true false]) ∧
    (Worker.poll sampleWorld (sampleWorker "a") sampleSys).toOption.map
        (fun r => r.1.currentJob) = some (some sampleAllocated) := by
  decide

/-! ## The scan of `/jobs` -/

theorem casAttempts_append (a b : List Call) :
    casAttempts (a ++ b) = casAttempts a ++ casAttempts b := by
  simp [casAttempts, List.filterMap_append]

theorem pollLoop_first_claimable {ω : Type} (W : World ω) (worker : Worker)
    (outcome : String → Nat → Bool)
    (hm : ∀ job, ∃ b, W.marshalJob job = .ok b)
    (hcas : ∀ w k v ttl pv i,
      if outcome k i then (W.etcdCompareAndSwap w k v ttl pv i).1 = none
      else ∃ m, (W.etcdCompareAndSwap w k v ttl pv i).1 = some (.etcd 101 m))
    (nodes : List Node) :
    ∀ (s : Sys ω), (∀ n ∈ nodes, ∃ j, W.unmarshalJob n.Value = .ok j ∧ j.States ≠ []) →
    ∃ spawned s', Worker.pollLoop W worker nodes s = .ret (spawned, s') ∧
      (match nodes.find? (claimable W outcome) with
       | some n => ∃ j t, W.unmarshalJob n.Value = .ok j ∧ spawned = some (claimOf worker n j t)
       | none => spawned = none) ∧
      casAttempts s'.calls = casAttempts s.calls ++
        (((nodes.takeWhile (fun n => !claimable W outcome n)).filter (lastQueued W)
          ++ (nodes.find? (claimable W outcome)).toList).map
            (fun n => (n.Key, n.ModifiedIndex))) := by
  induction nodes with
  | nil => intro s _; exact ⟨none, s, rfl, rfl, by simp⟩
  | cons n rest ih =>
    intro s hparse
    obtain ⟨j, hj, hne⟩ := hparse n (List.mem_cons_self _ _)
    have hrest : ∀ n ∈ rest, ∃ j, W.unmarshalJob n.Value = .ok j ∧ j.States ≠ [] :=
      fun m hmem => hparse m (List.mem_cons_of_mem _ hmem)
    obtain ⟨q, hq⟩ : ∃ q, j.States.getLast? = some q := by
      cases hl : j.States.getLast? with
      | none => exact absurd (List.getLast?_eq_none_iff.mp hl) hne
      | some q => exact ⟨q, rfl⟩
    by_cases hqueued : q.State = JobStateQueued
    · obtain ⟨b, hb⟩ := hm (claimOf worker n j (W.now s.world).1)
      have h1 := tryAllocateJob_queued W worker n s j q b hj hq hqueued hb
      have hlq : lastQueued W n = true := by simp [lastQueued, hj, hq, hqueued]
      have hc := hcas (W.now s.world).2 n.Key b 0 "" n.ModifiedIndex
      cases ho : outcome n.Key n.ModifiedIndex with
      | true =>
        simp only [ho, if_true] at hc
        simp only [hc] at h1
        refine ⟨_, _, by rw [Worker.pollLoop, h1], ?_, ?_⟩
        · simp only [List.find?, claimable, hlq, ho, Bool.and_self]
          exact ⟨j, _, hj, rfl⟩
        · simp [Sys.recordDoc, casAttempts_append, casAttempts, List.find?, List.takeWhile,
            claimable, hlq, ho]
      | false =>
        simp only [ho] at hc
        obtain ⟨m, hc⟩ := hc
        simp only [hc, if_true] at h1
        obtain ⟨spawned, s', hl, hfound, hcalls⟩ := ih
          (s.recordDoc (W.etcdCompareAndSwap (W.now s.world).2 n.Key b 0 "" n.ModifiedIndex).2
            (Call.compareAndSwap n.Key b 0 "" n.ModifiedIndex)
            (claimOf worker n j (W.now s.world).1)) hrest
        refine ⟨spawned, s', by simp only [Worker.pollLoop, h1, hl], ?_, ?_⟩
        · simpa [List.find?, claimable, hlq, ho] using hfound
        · rw [hcalls]
          simp [Sys.recordDoc, casAttempts_append, casAttempts, List.find?, List.takeWhile,
            claimable, hlq, ho, List.filter]
    · have h1 : Worker.tryAllocateJob W worker n s = .ret ((none, none), s) := by
        unfold Worker.tryAllocateJob
        simp [hj, hq, hqueued]
      have hlq : lastQueued W n = false := by simp [lastQueued, hj, hq, hqueued]
      obtain ⟨spawned, s', hl, hfound, hcalls⟩ := ih s hrest
      refine ⟨spawned, s', by simp only [Worker.pollLoop, h1, hl], ?_, ?_⟩
      · simpa [List.find?, claimable, hlq] using hfound
      · rw [hcalls]
        simp [List.find?, List.takeWhile, claimable, hlq, List.filter]

/-- C5 (ordered first-claimable scan).  All children of `/jobs` decode to
jobs with non-empty `States`, and `outcome` assigns success or error 101 to
the `CompareAndSwap` of every node.  Then `poll` returns, and it installs as
`currentJob` (and spawns) the claim of the first node in list order that is
queued and whose `CompareAndSwap` succeeds, or leaves the worker as it was
when there is none.  The `CompareAndSwap` calls it makes are exactly those for
the queued nodes before that first node, in order, followed by that node:
nodes that are not queued get no attempt, conflicts are passed over, and
nothing after the claimed node is attempted. -/
theorem poll_first_claimable {ω : Type} (W : World ω) (worker : Worker) (nodes : List Node)
    (s : Sys ω) (outcome : String → Nat → Bool)
    (hget : (W.etcdGet s.world PathJobs true false).1 = .ok nodes)
    (hparse : ∀ n ∈ nodes, ∃ j, W.unmarshalJob n.Value = .ok j ∧ j.States ≠ [])
    (hm : ∀ job, ∃ b, W.marshalJob job = .ok b)
    (hcas : ∀ w k v ttl pv i,
      if outcome k i then (W.etcdCompareAndSwap w k v ttl pv i).1 = none
      else ∃ m, (W.etcdCompareAndSwap w k v ttl pv i).1 = some (.etcd 101 m)) :
    ∃ worker' spawned s', Worker.poll W worker s = .ret (worker', spawned, s') ∧
      (match nodes.find? (claimable W outcome) with
       | some n => ∃ j t, W.unmarshalJob n.Value = .ok j ∧
           spawned = some (claimOf worker n j t) ∧ worker' = { worker with currentJob := spawned }
       | none => spawned = none ∧ worker' = worker) ∧
      casAttempts s'.calls = casAttempts s.calls ++
        (((nodes.takeWhile (fun n => !claimable W outcome n)).filter (lastQueued W)
          ++ (nodes.find? (claimable W outcome)).toList).map
            (fun n => (n.Key, n.ModifiedIndex))) := by
  obtain ⟨spawned, s', hl, hfound, hcalls⟩ := pollLoop_first_claimable W worker outcome hm hcas
    nodes (s.record (W.etcdGet s.world PathJobs true false).2 (Call.get PathJobs true false))
    hparse
  have hc0 : casAttempts (s.record (W.etcdGet s.world PathJobs true false).2
      (Call.get PathJobs true false)).calls = casAttempts s.calls := by
    simp [Sys.record, casAttempts_append, casAttempts]
  rw [hc0] at hcalls
  cases spawned with
  | none =>
    refine ⟨worker, none, s', by simp only [Worker.poll, hget, hl], ?_, hcalls⟩
    cases hf : nodes.find? (claimable W outcome) with
    | none => exact ⟨rfl, rfl⟩
    | some n =>
      rw [hf] at hfound
      obtain ⟨_, _, _, h⟩ := hfound
      exact absurd h (by simp)
  | some job =>
    refine ⟨{ worker with currentJob := some job }, some job, s',
      by simp only [Worker.poll, hget, hl], ?_, hcalls⟩
    cases hf : nodes.find? (claimable W outcome) with
    | none =>
      rw [hf] at hfound
      exact absurd hfound (by simp)
    | some n =>
      rw [hf] at hfound
      obtain ⟨j, t, hj, h⟩ := hfound
      exact ⟨j, t, hj, h, rfl⟩

theorem poll_first_claimable_witness :
    (Worker.poll scanWorld (sampleWorker "a") scanSys).toOption.map
        (fun r => (r.1.currentJob.map (fun j => j.id), casAttempts r.2.2.calls))
      = some (some "17", [("/jobs/16", 3), ("/jobs/17", 4)]) := by
  obtain ⟨worker', spawned, s', hp, hfound, hcalls⟩ :=
    poll_first_claimable scanWorld (sampleWorker "a") scanNodes scanSys (fun _ i => decide (i = 4))
      rfl
      (by
        intro n hn
        simp only [scanNodes, List.mem_cons, List.mem_singleton, List.not_mem_nil, or_false] at hn
        rcases hn with rfl | rfl | rfl | rfl
        · exact ⟨sampleAllocated, rfl, by decide⟩
        · exact ⟨sampleJob, rfl, by decide⟩
        · exact ⟨sampleJob, rfl, by decide⟩
        · exact ⟨sampleJob, rfl, by decide⟩)
      (fun job => ⟨"job by " ++ job.Owner, rfl⟩)
      (by
        intro w k v ttl pv i
        by_cases h : i = 4
        · simp [scanWorld, h]
        · simp [scanWorld, h])
  have hf : scanNodes.find? (claimable scanWorld (fun _ i => decide (i = 4)))
      = some { Key := "/jobs/17", Value := "queued", ModifiedIndex := 4 } := by decide
  rw [hf] at hfound hcalls
  obtain ⟨j, t, _, hs, hw⟩ := hfound
  have ht : (scanNodes.takeWhile (fun n => !claimable scanWorld (fun _ i => decide (i = 4)) n)).filter
      (lastQueued scanWorld) = [{ Key := "/jobs/16", Value := "queued", ModifiedIndex := 3 }] := by
    decide
  rw [ht] at hcalls
  rw [hp, hw, hs]
  simp only [Exec.toOption, Option.map, hcalls]
  rfl

/-! ## The claim -/

/-- C6 (claim postcondition).  For a node whose value decodes to a job `j`
with last state QUEUED, `tryAllocateJob` returns, and the one call it makes is
a `CompareAndSwap` on the node's own key with previous index
`node.ModifiedIndex`, carrying the encoding of a Job whose `States` are those
of `j` followed by the one entry STARTED, `Allocated`, now, whose `Owner` is
`worker.Id`, whose `Container`, `Fileset` and `Result` are those of `j`, and
whose `id` is the base name of the node's key.  When the `CompareAndSwap`
succeeds, that Job is returned with no error. -/
theorem tryAllocateJob_claim {ω : Type} (W : World ω) (worker : Worker) (node : Node)
    (s : Sys ω) (j : Job) (q : State)
    (hparse : W.unmarshalJob node.Value = .ok j)
    (hlast : j.States.getLast? = some q) (hq : q.State = JobStateQueued)
    (hm : ∀ job, ∃ b, W.marshalJob job = .ok b) :
    ∃ job b r s1, Worker.tryAllocateJob W worker node s = .ret (r, s1) ∧
      job.States = j.States ++
        [{ State := JobStateStarted, Step := "Allocated", Date := (W.now s.world).1 }] ∧
      job.Owner = worker.Id ∧ job.Container = j.Container ∧ job.Fileset = j.Fileset ∧
      job.Result = j.Result ∧ job.id = pathBase node.Key ∧
      W.marshalJob job = .ok b ∧
      s1.calls = s.calls ++ [Call.compareAndSwap node.Key b 0 "" node.ModifiedIndex] ∧
      s1.docs = s.docs ++ [job] ∧
      ((W.etcdCompareAndSwap (W.now s.world).2 node.Key b 0 "" node.ModifiedIndex).1 = none →
        r = (some job, none)) := by
  obtain ⟨b, hb⟩ := hm (claimOf worker node j (W.now s.world).1)
  have h1 := tryAllocateJob_queued W worker node s j q b hparse hlast hq hb
  cases hr : (W.etcdCompareAndSwap (W.now s.world).2 node.Key b 0 "" node.ModifiedIndex).1 with
  | none =>
    simp only [hr] at h1
    exact ⟨claimOf worker node j (W.now s.world).1, b, _, _, h1, rfl, rfl, rfl, rfl, rfl, rfl, hb, rfl, rfl, fun _ => rfl⟩
  | some e =>
    cases e with
    | etcd code m =>
      by_cases hcode : code = 101
      · simp only [hr, hcode, if_true] at h1
        exact ⟨claimOf worker node j (W.now s.world).1, b, _, _, h1, rfl, rfl, rfl, rfl, rfl, rfl, hb, rfl, rfl,
          fun h => by rw [hr] at h; cases h⟩
      · simp only [hr, hcode, if_false] at h1
        exact ⟨claimOf worker node j (W.now s.world).1, b, _, _, h1, rfl, rfl, rfl, rfl, rfl, rfl, hb, rfl, rfl,
          fun h => by rw [hr] at h; cases h⟩
    | other m =>
      simp only [hr] at h1
      exact ⟨claimOf worker node j (W.now s.world).1, b, _, _, h1, rfl, rfl, rfl, rfl, rfl, rfl, hb, rfl, rfl,
        fun h => by rw [hr] at h; cases h⟩

theorem tryAllocateJob_claim_witness :
    (Worker.tryAllocateJob sampleWorld (sampleWorker "a") sampleNode sampleSys).toOption.map
        (fun r => r.2.calls) =
      some [Call.compareAndSwap "/jobs/17" "job by a" 0 "" 4] := by
  obtain ⟨job, b, r, s1, hrun, _, hown, _, _, _, _, hb, hcalls, _, _⟩ :=
    tryAllocateJob_claim sampleWorld (sampleWorker "a") sampleNode sampleSys sampleJob
      { State := "QUEUED", Step := "", Date := 0 } rfl rfl rfl
      (fun job => ⟨"job by " ++ job.Owner, rfl⟩)
  have hbv : b = "job by a" := by
    have h : Except.ok ("job by " ++ job.Owner) = Except.ok b := hb
    rw [hown] at h
    injection h with h
    exact h.symm
  rw [hrun, Exec.toOption, Option.map, hcalls, hbv]
  rfl

/-! ## The happy path -/

theorem string_length_zero (x : String) : x.length = 0 ↔ x = "" := by
  constructor
  · intro h
    apply String.ext
    exact List.length_eq_zero.mp h
  · intro h; rw [h]; rfl

theorem foldl_mapDelete (names : List String) : ∀ (m : ImageMap),
    names.foldl mapDelete m = m.filter (fun e => decide (e.1 ∉ names)) := by
  induction names with
  | nil => intro m; simp
  | cons x xs ih =>
    intro m
    simp only [List.foldl_cons, ih, mapDelete, List.filter_filter]
    congr 1
    funext e
    by_cases h : e.1 = x <;> simp [h]

theorem mem_mapInsert (m : ImageMap) (key : String) (opts : PullImageOptions)
    (e : String × PullImageOptions) (he : e ∈ mapInsert m key opts) :
    e ∈ m ∨ e = (key, opts) := by
  unfold mapInsert at he
  split at he
  · simp only [List.mem_map] at he
    obtain ⟨x, hx, rfl⟩ := he
    by_cases h : x.1 = key
    · simp [h]
    · simp [h, hx]
  · simpa using he

theorem pullImages_local {ω : Type} (W : World ω) (cfg : WorkerConfig) (job : Job) (s : Sys ω)
    (c : Container) (conf : Config)
    (hc : job.Container = some c) (hconf : c.Config = some conf)
    (hloc : ImagesLocal W cfg.EarthkitImg conf.Image) :
    ∃ s', Job.pullImages W cfg job s = .ret (none, job, s') := by
  obtain ⟨images, hl, h1, h2⟩ := hloc s.world
  unfold imageKey at h1 h2
  unfold Job.pullImages
  simp only [hc, hconf, hl, foldl_mapDelete]
  refine ⟨s.record (W.dockerListImages s.world false).2 (Call.listImages false), ?_⟩
  have : ∀ (m : ImageMap), (∀ e ∈ m, e.1 ∈ images.flatMap (fun i => i.RepoTags)) →
      m.filter (fun e => decide (e.1 ∉ images.flatMap (fun i => i.RepoTags))) = [] := by
    intro m hm
    simp only [List.filter_eq_nil_iff]
    intro e he
    simpa using hm e he
  rw [this]
  · simp [pullLoop]
  · intro e he
    rcases mem_mapInsert _ _ _ _ he with he | rfl
    · rcases mem_mapInsert _ _ _ _ he with he | rfl
      · simp at he
      · exact h1
    · exact h2

theorem pullData_ok {ω : Type} (W : World ω) (cfg : WorkerConfig) (job : Job) (s : Sys ω)
    (fs : JobFileset) (input : Fileset) (hd : ContainersSucceed W)
    (hfs : job.Fileset = some fs) (hin : fs.Input = some input) :
    ∃ t s', Job.pullData W cfg job s = .ret (none,
      job.setState JobStateStarted
        ("Pulling fileset: " ++ (if input.Name = "" then "latest" else input.Name)) t, s') := by
  unfold Job.pullData
  simp only [hfs, hin]
  split
  · rename_i e he
    obtain ⟨k, hk⟩ := hd.create _ _
    rw [hk] at he
    cases he
  · simp only [hd.start, hd.wait, string_length_zero]
    exact ⟨_, _, rfl⟩

theorem runContainer_ok {ω : Type} (W : World ω) (cfg : WorkerConfig) (job : Job) (s : Sys ω)
    (c : Container) (conf : Config) (hd : ContainersSucceed W)
    (hc : job.Container = some c) (hconf : c.Config = some conf) :
    ∃ t k s', Job.runContainer W cfg job s = .ret (none,
      ({ job with Container := some k } : Job).setState JobStateStarted "RUNNING" t, s') := by
  unfold Job.runContainer
  simp only [hc, hconf]
  split
  · rename_i e he
    obtain ⟨k, hk⟩ := hd.create _ _
    rw [hk] at he
    cases he
  · simp only [hd.start, hd.wait]
    exact ⟨_, _, _, rfl⟩

theorem pushData_ok {ω : Type} (W : World ω) (cfg : WorkerConfig) (job : Job) (s : Sys ω)
    (fs : JobFileset) (output : Fileset) (hd : ContainersSucceed W)
    (hfs : job.Fileset = some fs) (hout : fs.Output = some output) (hne : output.Name ≠ "") :
    ∃ t s', Job.pushData W cfg job s = .ret (none,
      job.setState JobStateStarted ("Pushing fileset: " ++ output.Name) t, s') := by
  unfold Job.pushData
  simp only [hfs, hout, string_length_zero, hne, if_false]
  split
  · rename_i e he
    obtain ⟨k, hk⟩ := hd.create _ _
    rw [hk] at he
    cases he
  · simp only [hd.start, hd.wait]
    exact ⟨_, _, rfl⟩

theorem start_of_stages {ω : Type} (W : World ω) (cfg : WorkerConfig) (job : Job) (s : Sys ω)
    (j1 j2 j3 j4 : Job) (s1 s2 s3 s4 : Sys ω)
    (h1 : Job.pullImages W cfg job s = .ret (none, j1, s1))
    (h2 : Job.pullData W cfg j1 s1 = .ret (none, j2, s2))
    (h3 : Job.runContainer W cfg j2 s2 = .ret (none, j3, s3))
    (h4 : Job.pushData W cfg j3 s3 = .ret (none, j4, s4)) :
    Job.start W cfg job s =
      .ret ((Job.finish W j4 { Status := "SUCCESS", Info := "" } s4).1,
        (Job.finish W j4 { Status := "SUCCESS", Info := "" } s4).2) := by
  simp only [Job.start, h1, h2, h3, h4]

/-- C7 (happy-path step history).  For a job with a container configuration,
input fileset `input` and output fileset `output` of non-empty name, when both
images are already local, every container call succeeds and every wait returns
exit code 0, `Job.start` returns with `States` equal to the earlier ones
followed by exactly STARTED `Pulling fileset: ` plus the input name (`latest`
when it is empty), STARTED `RUNNING`, STARTED `Pushing fileset: ` plus the
output name, and FINISHED with an empty step, in that order, and with `Result`
SUCCESS and empty `Info`.  Writes to the KV store may succeed or fail. -/
theorem happy_path_history {ω : Type} (W : World ω) (cfg : WorkerConfig) (job : Job) (s : Sys ω)
    (c : Container) (conf : Config) (input output : Fileset)
    (hc : job.Container = some c) (hconf : c.Config = some conf)
    (hfs : job.Fileset = some { Input := some input, Output := some output })
    (hout : output.Name ≠ "")
    (hloc : ImagesLocal W cfg.EarthkitImg conf.Image)
    (hd : ContainersSucceed W) :
    ∃ job' s' t1 t2 t3 t4, Job.start W cfg job s = .ret (job', s') ∧
      job'.States = job.States ++
        [{ State := JobStateStarted,
           Step := "Pulling fileset: " ++ (if input.Name = "" then "latest" else input.Name),
           Date := t1 },
         { State := JobStateStarted, Step := "RUNNING", Date := t2 },
         { State := JobStateStarted, Step := "Pushing fileset: " ++ output.Name, Date := t3 },
         { State := JobStateFinished, Step := "", Date := t4 }] ∧
      job'.Result = some { Status := "SUCCESS", Info := "" } := by
  obtain ⟨s1, h1⟩ := pullImages_local W cfg job s c conf hc hconf hloc
  obtain ⟨t1, s2, h2⟩ := pullData_ok W cfg job s1 _ input hd hfs rfl
  obtain ⟨t2, k, s3, h3⟩ := runContainer_ok W cfg
    (job.setState JobStateStarted
      ("Pulling fileset: " ++ (if input.Name = "" then "latest" else input.Name)) t1) s2 c conf hd
    hc hconf
  obtain ⟨t3, s4, h4⟩ := pushData_ok W cfg _ s3 _ output hd
    (show (({ (job.setState JobStateStarted
      ("Pulling fileset: " ++ (if input.Name = "" then "latest" else input.Name)) t1) with
        Container := some k } : Job).setState JobStateStarted "RUNNING" t2).Fileset = _ from hfs)
    rfl hout
  refine ⟨_, _, t1, t2, t3, (W.now s4.world).1, start_of_stages W cfg job s _ _ _ _ _ _ _ _ h1 h2 h3 h4, ?_, ?_⟩
  · simp [Job.finish, Job.setState]
  · simp [Job.finish, Job.setState]

theorem happy_path_history_witness :
    (Job.start sampleWorld sampleConfig sampleAllocated sampleSys).toOption.map
        (fun r => (r.1.States.map (fun e => (e.State, e.Step)), r.1.Result)) =
      some ([("QUEUED", ""), ("STARTED", "Allocated"), ("STARTED", "Pulling fileset: hello"),
         ("STARTED", "RUNNING"), ("STARTED", "Pushing fileset: hello_out"), ("FINISHED", "")],
        some { Status := "SUCCESS", Info := "" }) := by
  obtain ⟨job', s', t1, t2, t3, t4, hrun, hstates, hres⟩ :=
    happy_path_history sampleWorld sampleConfig sampleAllocated sampleSys
      { ID := "", Config := some sampleImageConfig } sampleImageConfig
      { Name := "hello", Patterns := [] } { Name := "hello_out", Patterns := [] }
      rfl rfl rfl (by decide)
      (fun _ => ⟨[{ RepoTags := ["ubuntu:latest"] }, { RepoTags := ["earthkit:latest"] }], rfl,
        by decide, by decide⟩)
      ⟨fun _ _ => ⟨_, rfl⟩, fun _ _ _ => rfl, fun _ _ => rfl, fun _ _ _ => rfl⟩
  rw [hrun, Exec.toOption, Option.map, hstates, hres]
  rfl

/-! ## Stages, history and the event loop -/

theorem save_docs {ω : Type} (W : World ω) (job : Job) (s : Sys ω) :
    ((Job.save W job s).docs = s.docs ∨ (Job.save W job s).docs = s.docs ++ [job]) ∧
      (Job.save W job s).sent = s.sent := by
  unfold Job.save
  split
  · exact ⟨Or.inl rfl, rfl⟩
  · exact ⟨Or.inr rfl, rfl⟩

theorem stage_same {ω : Type} (P : String → Prop) (job : Job) (s s' : Sys ω)
    (hd : s'.docs = s.docs) (hs : s'.sent = s.sent) : Stage P job s job s' :=
  ⟨⟨[], by simp, by simp⟩, rfl, rfl, fun c conf hc hconf => ⟨c, conf, hc, hconf⟩, Or.inl hd, hs⟩

theorem stage_saved {ω : Type} (P : String → Prop) (job : Job) (s s' : Sys ω)
    (step : String) (t : Nat) (hp : P step)
    (hd : s'.docs = s.docs ∨ s'.docs = s.docs ++ [job.setState JobStateStarted step t])
    (hs : s'.sent = s.sent) :
    Stage P job s (job.setState JobStateStarted step t) s' := by
  refine ⟨⟨[_], rfl, ?_⟩, rfl, rfl, fun c conf hc hconf => ⟨c, conf, hc, hconf⟩, hd, hs⟩
  intro x hx
  simp only [List.mem_singleton] at hx
  subst hx
  exact ⟨rfl, hp⟩

theorem pullData_stage {ω : Type} (W : World ω) (cfg : WorkerConfig) (job : Job) (s : Sys ω)
    (fs : JobFileset) (input : Fileset)
    (hfs : job.Fileset = some fs) (hin : fs.Input = some input) :
    ∃ e job' s', Job.pullData W cfg job s = .ret (e, job', s') ∧
      Stage (fun step => isPushingStep step = false) job s job' s' := by
  have hp : ∀ x : String, isPushingStep ("Pulling fileset: " ++ x) = false := by
    intro x
    simp [isPushingStep, List.isPrefixOf]
  unfold Job.pullData
  simp only [hfs, hin]
  generalize W.dockerCreateContainer s.world _ = rc
  rcases rc with ⟨e | container, w1⟩
  · exact ⟨_, _, _, rfl, stage_same _ _ _ _ rfl rfl⟩
  · simp only []
    generalize W.dockerStartContainer _ _ _ = rs
    rcases rs with ⟨_ | e, w2⟩
    · simp only []
      generalize W.now _ = t
      generalize W.dockerWaitContainer _ _ = rw
      rcases rw with ⟨⟨code, _ | e⟩, w3⟩
      · exact ⟨_, _, _, rfl, stage_saved _ _ _ _ _ _ (hp _) (save_docs W _ _).1 (save_docs W _ _).2⟩
      · simp only []
        by_cases hcode : code = 0
        · simp only [hcode, ne_eq, not_true_eq_false, if_false]
          exact ⟨_, _, _, rfl, stage_saved _ _ _ _ _ _ (hp _) (save_docs W _ _).1 (save_docs W _ _).2⟩
        · simp only [hcode, ne_eq, not_false_eq_true, if_true]
          exact ⟨_, _, _, rfl, stage_saved _ _ _ _ _ _ (hp _) (save_docs W _ _).1 (save_docs W _ _).2⟩
    · exact ⟨_, _, _, rfl, stage_same _ _ _ _ rfl rfl⟩

theorem pullLoop_effect {ω : Type} (W : World ω) (l : List (String × PullImageOptions)) :
    ∀ (job : Job) (s : Sys ω),
      (∃ added, (pullLoop W l job s).2.1.States = job.States ++ added ∧
        ∀ x ∈ added, x.State = JobStateStarted ∧ isPushingStep x.Step = false) ∧
      (pullLoop W l job s).2.1.Fileset = job.Fileset ∧
      (pullLoop W l job s).2.1.id = job.id ∧
      (pullLoop W l job s).2.1.Container = job.Container ∧
      (pullLoop W l job s).2.2.docs = s.docs ∧
      (pullLoop W l job s).2.2.sent = s.sent := by
  induction l with
  | nil => intro job s; exact ⟨⟨[], by simp [pullLoop], by simp⟩, rfl, rfl, rfl, rfl, rfl⟩
  | cons p rest ih =>
    intro job s
    obtain ⟨imageName, opts⟩ := p
    have hp : isPushingStep ("Pulling docker image: " ++ imageName) = false := by
      simp [isPushingStep, List.isPrefixOf]
    unfold pullLoop
    simp only []
    generalize W.now _ = t
    generalize W.dockerPullImage _ _ = r
    rcases r with ⟨_ | e, w⟩
    · simp only []
      obtain ⟨⟨added, ha, hall⟩, hf, hi, hc, hd, hs⟩ := ih
        (job.setState JobStateStarted ("Pulling docker image: " ++ imageName) t.1)
        (s.record w (Call.pullImage opts))
      refine ⟨⟨(⟨JobStateStarted, "Pulling docker image: " ++ imageName, t.1⟩ : State) :: added,
        ?_, ?_⟩, hf, hi, hc, hd, hs⟩
      · rw [ha]; simp [Job.setState]
      · intro x hx
        rcases List.mem_cons.mp hx with rfl | hx
        · exact ⟨rfl, hp⟩
        · exact hall x hx
    · refine ⟨⟨[_], rfl, ?_⟩, rfl, rfl, rfl, rfl, rfl⟩
      intro x hx
      simp only [List.mem_singleton] at hx
      subst hx
      exact ⟨rfl, hp⟩

theorem pullImages_stage {ω : Type} (W : World ω) (cfg : WorkerConfig) (job : Job) (s : Sys ω)
    (c : Container) (conf : Config)
    (hc : job.Container = some c) (hconf : c.Config = some conf) :
    ∃ e job' s', Job.pullImages W cfg job s = .ret (e, job', s') ∧
      Stage (fun step => isPushingStep step = false) job s job' s' := by
  unfold Job.pullImages
  simp only [hc, hconf]
  generalize W.dockerListImages _ _ = r
  rcases r with ⟨e | images, w⟩
  · exact ⟨_, _, _, rfl, stage_same _ _ _ _ rfl rfl⟩
  · simp only []
    generalize (if W.rangeReversed = true then _ else _ : ImageMap) = l
    obtain ⟨hst, hf, hi, hcc, hd, hs⟩ := pullLoop_effect W l job (s.record w (Call.listImages false))
    refine ⟨_, _, _, rfl, hst, hf, hi, ?_, Or.inl hd, hs⟩
    intro c' conf' h1 h2
    exact ⟨c', conf', by rw [hcc]; exact h1, h2⟩

theorem runContainer_stage {ω : Type} (W : World ω) (cfg : WorkerConfig) (job : Job) (s : Sys ω)
    (c : Container) (conf : Config)
    (hc : job.Container = some c) (hconf : c.Config = some conf) :
    ∃ e job' s', Job.runContainer W cfg job s = .ret (e, job', s') ∧
      Stage (fun step => isPushingStep step = false) job s job' s' := by
  have hp : isPushingStep "RUNNING" = false := by decide
  unfold Job.runContainer
  simp only [hc, hconf]
  generalize W.dockerCreateContainer s.world _ = rc
  rcases rc with ⟨e | container, w1⟩
  · exact ⟨_, _, _, rfl, ⟨[], by simp, by simp⟩, rfl, rfl, fun _ _ _ _ => ⟨_, _, rfl, rfl⟩,
      Or.inl rfl, rfl⟩
  · simp only []
    generalize W.dockerStartContainer _ _ _ = rs
    rcases rs with ⟨_ | e, w2⟩
    · simp only []
      generalize W.now _ = t
      generalize W.dockerWaitContainer _ _ = rw
      have hone : ∀ x ∈ [({ State := JobStateStarted, Step := "RUNNING", Date := t.1 } : State)],
          x.State = JobStateStarted ∧ isPushingStep x.Step = false := by
        intro x hx
        simp only [List.mem_singleton] at hx
        subst hx
        exact ⟨rfl, hp⟩
      rcases rw with ⟨⟨code, _ | e⟩, w3⟩
      · exact ⟨_, _, _, rfl, ⟨_, rfl, hone⟩, rfl, rfl, fun _ _ _ _ => ⟨_, _, rfl, rfl⟩,
          (save_docs W _ _).1, (save_docs W _ _).2⟩
      · simp only []
        by_cases hcode : code = 0
        · simp only [hcode, ne_eq, not_true_eq_false, if_false]
          exact ⟨_, _, _, rfl, ⟨_, rfl, hone⟩, rfl, rfl, fun _ _ _ _ => ⟨_, _, rfl, rfl⟩,
            (save_docs W _ _).1, (save_docs W _ _).2⟩
        · simp only [hcode, ne_eq, not_false_eq_true, if_true]
          exact ⟨_, _, _, rfl, ⟨_, rfl, hone⟩, rfl, rfl, fun _ _ _ _ => ⟨_, _, rfl, rfl⟩,
            (save_docs W _ _).1, (save_docs W _ _).2⟩
    · exact ⟨_, _, _, rfl, ⟨[], by simp, by simp⟩, rfl, rfl, fun _ _ _ _ => ⟨_, _, rfl, rfl⟩,
        Or.inl rfl, rfl⟩

theorem pushData_stage {ω : Type} (W : World ω) (cfg : WorkerConfig) (job : Job) (s : Sys ω)
    (fs : JobFileset) (hfs : job.Fileset = some fs) :
    ∃ e job' s', Job.pushData W cfg job s = .ret (e, job', s') ∧
      Stage (fun _ => True) job s job' s' := by
  unfold Job.pushData
  simp only [hfs]
  rcases fs.Output with _ | output
  · exact ⟨_, _, _, rfl, stage_same _ _ _ _ rfl rfl⟩
  · simp only []
    by_cases hname : output.Name.length = 0
    · simp only [hname, if_true]
      exact ⟨_, _, _, rfl, stage_same _ _ _ _ rfl rfl⟩
    · simp only [hname, if_false]
      generalize W.dockerCreateContainer s.world _ = rc
      rcases rc with ⟨e | container, w1⟩
      · exact ⟨_, _, _, rfl, stage_same _ _ _ _ rfl rfl⟩
      · simp only []
        generalize W.dockerStartContainer _ _ _ = rs
        rcases rs with ⟨_ | e, w2⟩
        · simp only []
          generalize W.now _ = t
          generalize W.dockerWaitContainer _ _ = rw
          rcases rw with ⟨⟨code, _ | e⟩, w3⟩
          · exact ⟨_, _, _, rfl,
              stage_saved _ _ _ _ _ _ trivial (save_docs W _ _).1 (save_docs W _ _).2⟩
          · simp only []
            by_cases hcode : code = 0
            · simp only [hcode, ne_eq, not_true_eq_false, if_false]
              exact ⟨_, _, _, rfl,
                stage_saved _ _ _ _ _ _ trivial (save_docs W _ _).1 (save_docs W _ _).2⟩
            · simp only [hcode, ne_eq, not_false_eq_true, if_true]
              exact ⟨_, _, _, rfl,
                stage_saved _ _ _ _ _ _ trivial (save_docs W _ _).1 (save_docs W _ _).2⟩
        · exact ⟨_, _, _, rfl, stage_same _ _ _ _ rfl rfl⟩

theorem hist_extend (base states states' : List State) (docs : List Job)
    (h : Hist base states docs) (hp : states <+: states') : Hist base states' docs :=
  ⟨h.1, h.2.1.trans hp, fun d hd => ⟨(h.2.2 d hd).1, ((h.2.2 d hd).2).trans hp⟩⟩

theorem hist_write (base states : List State) (docs : List Job) (job : Job)
    (h : Hist base states docs) (hp : states <+: job.States) :
    Hist base job.States (docs ++ [job]) := by
  refine ⟨?_, h.2.1.trans hp, ?_⟩
  · rw [List.chain'_append]
    refine ⟨h.1, List.chain'_singleton _, ?_⟩
    intro x hx y hy
    simp only [List.head?_cons, Option.mem_def, Option.some.injEq] at hy
    subst hy
    exact ((h.2.2 x (List.mem_of_mem_getLast? hx)).2).trans hp
  · intro d hd
    rcases List.mem_append.mp hd with hd | hd
    · exact ⟨(h.2.2 d hd).1, ((h.2.2 d hd).2).trans hp⟩
    · simp only [List.mem_singleton] at hd
      subst hd
      exact ⟨h.2.1.trans hp, List.prefix_refl _⟩

theorem progress_of_stage {ω : Type} (P : String → Prop) (job job' : Job) (s s' : Sys ω)
    (h : Stage P job s job' s') : Progress job s job' s' := by
  obtain ⟨added, ha, hall⟩ := h.states
  have hpre : job.States <+: job'.States := ⟨added, ha.symm⟩
  refine ⟨⟨added, ha, fun x hx => (hall x hx).1⟩, ?_, ?_, h.sent⟩
  · intro base hh
    rcases h.docs with hd | hd
    · rw [hd]; exact hist_extend _ _ _ _ hh hpre
    · rw [hd]; exact hist_write _ _ _ _ hh hpre
  · rcases h.docs with hd | hd
    · rw [hd]
    · rw [hd]; exact List.prefix_append _ _

theorem progress_trans {ω : Type} (a b c : Job) (s s' s'' : Sys ω)
    (h1 : Progress a s b s') (h2 : Progress b s' c s'') : Progress a s c s'' := by
  obtain ⟨m1, e1, p1⟩ := h1.states
  obtain ⟨m2, e2, p2⟩ := h2.states
  refine ⟨⟨m1 ++ m2, by rw [e2, e1, List.append_assoc], ?_⟩,
    fun base h => h2.hist base (h1.hist base h), h1.grow.trans h2.grow,
    by rw [h2.sent, h1.sent]⟩
  intro x hx
  rcases List.mem_append.mp hx with hx | hx
  · exact p1 x hx
  · exact p2 x hx

/-- What `Job.finish` leaves behind after stages that made `Progress`. -/
theorem finish_effect {ω : Type} (W : World ω) (job jk : Job) (s sk : Sys ω) (res : JobResult)
    (hp : Progress job s jk sk) :
    ∃ mid t, Finished W job s (Job.finish W jk res sk).1 (Job.finish W jk res sk).2 mid t res := by
  obtain ⟨mid, hm, hall⟩ := hp.states
  have hpre : jk.States <+: (Job.finish W jk res sk).1.States :=
    ⟨[{ State := JobStateFinished, Step := "", Date := (W.now sk.world).1 }], rfl⟩
  have hsave := save_docs W (Job.finish W jk res sk).1 { sk with world := (W.now sk.world).2 }
  have hdocs : (Job.finish W jk res sk).2.docs =
      (Job.save W (Job.finish W jk res sk).1 { sk with world := (W.now sk.world).2 }).docs := rfl
  refine ⟨mid, (W.now sk.world).1, ?_, hall, rfl, ?_, ?_, ?_, ?_⟩
  · simp [Job.finish, Job.setState, hm]
  · intro base hh
    have hk := hp.hist base hh
    rcases hsave.1 with hd | hd
    · rw [hdocs, hd]
      exact hist_extend _ _ _ _ hk hpre
    · rw [hdocs, hd]
      exact hist_write _ _ _ _ hk hpre
  · rcases hsave.1 with hd | hd
    · rw [hdocs, hd]; exact hp.grow
    · rw [hdocs, hd]; exact hp.grow.trans (List.prefix_append _ _)
  · have h2 : (Job.finish W jk res sk).2.sent =
        (Job.save W (Job.finish W jk res sk).1 { sk with world := (W.now sk.world).2 }).sent
          ++ [SignalJobDone] := rfl
    rw [h2, hsave.2, hp.sent]
  · intro hmar
    obtain ⟨b, hb⟩ := hmar (Job.finish W jk res sk).1
    have : (Job.finish W jk res sk).2.docs = sk.docs ++ [(Job.finish W jk res sk).1] := by
      simp only [Job.finish, Job.save] at hb ⊢
      rw [hb]
      rfl
    rw [this]
    simp

theorem finished_of_progress {ω : Type} (W : World ω) (cfg : WorkerConfig) (job jk : Job)
    (s sk : Sys ω) (res : JobResult) (hp : Progress job s jk sk)
    (hrun : Job.start W cfg job s = .ret (Job.finish W jk res sk)) :
    ∃ job' s' mid t res, Job.start W cfg job s = .ret (job', s') ∧
      Finished W job s job' s' mid t res := by
  obtain ⟨mid, t, h⟩ := finish_effect W job jk s sk res hp
  exact ⟨_, _, mid, t, res, hrun, h⟩

/-- On a job with a container configuration and an input fileset the
pipeline driver never panics: it returns, finished. -/
theorem start_finishes {ω : Type} (W : World ω) (cfg : WorkerConfig) (job : Job) (s : Sys ω)
    (c : Container) (conf : Config) (fs : JobFileset) (input : Fileset)
    (hc : job.Container = some c) (hconf : c.Config = some conf)
    (hfs : job.Fileset = some fs) (hin : fs.Input = some input) :
    ∃ job' s' mid t res, Job.start W cfg job s = .ret (job', s') ∧
      Finished W job s job' s' mid t res := by
  obtain ⟨e1, j1, s1, h1, st1⟩ := pullImages_stage W cfg job s c conf hc hconf
  have p1 := progress_of_stage _ _ _ _ _ st1
  cases e1 with
  | some e =>
    exact finished_of_progress W cfg job j1 s s1 _ p1 (by simp only [Job.start, h1]; rfl)
  | none =>
    obtain ⟨e2, j2, s2, h2, st2⟩ := pullData_stage W cfg j1 s1 fs input
      (by rw [st1.fileset]; exact hfs) hin
    have p2 := progress_trans _ _ _ _ _ _ p1 (progress_of_stage _ _ _ _ _ st2)
    cases e2 with
    | some e =>
      exact finished_of_progress W cfg job j2 s s2 _ p2 (by simp only [Job.start, h1, h2]; rfl)
    | none =>
      obtain ⟨c1, conf1, hc1, hconf1⟩ := st1.container c conf hc hconf
      obtain ⟨c2, conf2, hc2, hconf2⟩ := st2.container c1 conf1 hc1 hconf1
      obtain ⟨e3, j3, s3, h3, st3⟩ := runContainer_stage W cfg j2 s2 c2 conf2 hc2 hconf2
      have p3 := progress_trans _ _ _ _ _ _ p2 (progress_of_stage _ _ _ _ _ st3)
      cases e3 with
      | some e =>
        exact finished_of_progress W cfg job j3 s s3 _ p3
          (by simp only [Job.start, h1, h2, h3]; rfl)
      | none =>
        obtain ⟨e4, j4, s4, h4, st4⟩ := pushData_stage W cfg j3 s3 fs
          (by rw [st3.fileset, st2.fileset, st1.fileset]; exact hfs)
        have p4 := progress_trans _ _ _ _ _ _ p3 (progress_of_stage _ _ _ _ _ st4)
        cases e4 with
        | some e =>
          exact finished_of_progress W cfg job j4 s s4 _ p4
            (by simp only [Job.start, h1, h2, h3, h4]; rfl)
        | none =>
          exact finished_of_progress W cfg job j4 s s4 _ p4
            (by simp only [Job.start, h1, h2, h3, h4]; rfl)

theorem pushData_skips {ω : Type} (W : World ω) (cfg : WorkerConfig) (fs : JobFileset)
    (hout : fs.Output = none ∨ ∃ o, fs.Output = some o ∧ o.Name = "")
    (j : Job) (sj : Sys ω) (hj : j.Fileset = some fs) :
    Job.pushData W cfg j sj = .ret (none, j, sj) := by
  unfold Job.pushData
  rcases hout with h | ⟨o, h, hn⟩
  · simp only [hj, h]
  · simp only [hj, h, hn]
    rfl

/-- C8 (output-fileset skip).  When the output fileset is nil or has an
empty name, `pushData` returns no error and leaves the job and the
environment as they were: no state is appended and no call is made, so no
container is created or started.  Hence, whenever the three earlier stages
return without error, `Job.start` finishes the job: it returns with `Result`
SUCCESS and empty `Info`; the entries it appended to `States` are STARTED
entries followed by one FINISHED entry in last place, and none of them has a
step that starts with `Pushing fileset`; `JOB_DONE` is sent once; and the
finished job is the last value handed to the KV store, by a `Set` on the
job's key, when its encoding succeeds. -/
theorem output_fileset_skip {ω : Type} (W : World ω) (cfg : WorkerConfig) (job : Job) (s : Sys ω)
    (fs : JobFileset) (hfs : job.Fileset = some fs)
    (hout : fs.Output = none ∨ ∃ o, fs.Output = some o ∧ o.Name = "") :
    (∀ (j : Job) (sj : Sys ω), j.Fileset = some fs →
        Job.pushData W cfg j sj = .ret (none, j, sj)) ∧
    (EarlierStagesSucceed W cfg job s →
      ∃ job' s' mid t, Job.start W cfg job s = .ret (job', s') ∧
        job'.Result = some { Status := "SUCCESS", Info := "" } ∧
        job'.States = job.States ++ (mid ++ [⟨JobStateFinished, "", t⟩]) ∧
        (∀ x ∈ mid, x.State = JobStateStarted) ∧
        (∀ x ∈ mid ++ [(⟨JobStateFinished, "", t⟩ : State)], isPushingStep x.Step = false) ∧
        s'.sent = s.sent ++ [SignalJobDone] ∧
        ∀ b, W.marshalJob job' = .ok b →
          s'.docs.getLast? = some job' ∧
            s'.calls.getLast? = some (Call.set (JobKey job'.id) b 0)) := by
  refine ⟨pushData_skips W cfg fs hout, ?_⟩
  rintro ⟨j1, s1, j2, s2, j3, s3, h1, h2, h3⟩
  -- the stages returned, so the pointers they dereference are not nil
  obtain ⟨c, hc⟩ : ∃ c, job.Container = some c := by
    cases hc : job.Container with
    | none => simp [Job.pullImages, hc] at h1
    | some c => exact ⟨c, rfl⟩
  obtain ⟨conf, hconf⟩ : ∃ conf, c.Config = some conf := by
    cases hconf : c.Config with
    | none => simp [Job.pullImages, hc, hconf] at h1
    | some conf => exact ⟨conf, rfl⟩
  obtain ⟨e1, j1', s1', g1, st1⟩ := pullImages_stage W cfg job s c conf hc hconf
  rw [h1] at g1
  injection g1 with g1
  injection g1 with _ g1
  injection g1 with g1j g1s
  subst g1j g1s
  have hfs1 : j1.Fileset = some fs := by rw [st1.fileset]; exact hfs
  obtain ⟨input, hin⟩ : ∃ input, fs.Input = some input := by
    cases hin : fs.Input with
    | none => simp [Job.pullData, hfs1, hin] at h2
    | some input => exact ⟨input, rfl⟩
  obtain ⟨e2, j2', s2', g2, st2⟩ := pullData_stage W cfg j1 s1 fs input hfs1 hin
  rw [h2] at g2
  injection g2 with g2
  injection g2 with _ g2
  injection g2 with g2j g2s
  subst g2j g2s
  obtain ⟨c1, conf1, hc1, hconf1⟩ := st1.container c conf hc hconf
  obtain ⟨c2, conf2, hc2, hconf2⟩ := st2.container c1 conf1 hc1 hconf1
  obtain ⟨e3, j3', s3', g3, st3⟩ := runContainer_stage W cfg j2 s2 c2 conf2 hc2 hconf2
  rw [h3] at g3
  injection g3 with g3
  injection g3 with _ g3
  injection g3 with g3j g3s
  subst g3j g3s
  have hfs3 : j3.Fileset = some fs := by rw [st3.fileset, st2.fileset]; exact hfs1
  have h4 := pushData_skips W cfg fs hout j3 s3 hfs3
  obtain ⟨a1, ha1, p1⟩ := st1.states
  obtain ⟨a2, ha2, p2⟩ := st2.states
  obtain ⟨a3, ha3, p3⟩ := st3.states
  refine ⟨(Job.finish W j3 { Status := "SUCCESS", Info := "" } s3).1,
    (Job.finish W j3 { Status := "SUCCESS", Info := "" } s3).2,
    a1 ++ a2 ++ a3, (W.now s3.world).1,
    by simp only [Job.start, h1, h2, h3, h4], rfl, ?_, ?_, ?_, ?_, ?_⟩
  · simp [Job.finish, Job.setState, ha3, ha2, ha1]
  · intro x hx
    simp only [List.mem_append] at hx
    rcases hx with (hx | hx) | hx
    · exact (p1 x hx).1
    · exact (p2 x hx).1
    · exact (p3 x hx).1
  · intro x hx
    simp only [List.mem_append, List.mem_singleton] at hx
    rcases hx with ((hx | hx) | hx) | hx
    · exact (p1 x hx).2
    · exact (p2 x hx).2
    · exact (p3 x hx).2
    · subst hx
      show isPushingStep "" = false
      decide
  · have hsave := save_docs W (Job.finish W j3 { Status := "SUCCESS", Info := "" } s3).1
      { s3 with world := (W.now s3.world).2 }
    have h : (Job.finish W j3 { Status := "SUCCESS", Info := "" } s3).2.sent =
        (Job.save W (Job.finish W j3 { Status := "SUCCESS", Info := "" } s3).1
          { s3 with world := (W.now s3.world).2 }).sent ++ [SignalJobDone] := rfl
    rw [h, hsave.2]
    show s3.sent ++ [SignalJobDone] = s.sent ++ [SignalJobDone]
    rw [st3.sent, st2.sent, st1.sent]
  · intro b hb
    have hd : (Job.finish W j3 { Status := "SUCCESS", Info := "" } s3).2.docs =
        s3.docs ++ [(Job.finish W j3 { Status := "SUCCESS", Info := "" } s3).1] := by
      simp only [Job.finish, Job.save] at hb ⊢
      rw [hb]
      rfl
    have hcalls : (Job.finish W j3 { Status := "SUCCESS", Info := "" } s3).2.calls =
        s3.calls ++ [Call.set
          (JobKey (Job.finish W j3 { Status := "SUCCESS", Info := "" } s3).1.id) b 0] := by
      simp only [Job.finish, Job.save] at hb ⊢
      rw [hb]
      rfl
    rw [hd, hcalls]
    simp

theorem output_fileset_skip_witness :
    (Job.start sampleWorld sampleConfig sampleNoOutput sampleSys).toOption.map
        (fun r => (r.1.Result, r.1.States.getLast?.map (fun e => e.State), r.2.sent)) =
      some (some { Status := "SUCCESS", Info := "" }, some "FINISHED", ["JOB_DONE"]) := by
  obtain ⟨job', s', mid, t, hrun, hres, hstates, _, _, hsent, _⟩ :=
    (output_fileset_skip sampleWorld sampleConfig sampleNoOutput sampleSys
      { Input := some { Name := "hello", Patterns := [] }, Output := none } rfl (Or.inl rfl)).2
      ⟨_, _, _, _, _, _, rfl, rfl, rfl⟩
  rw [hrun, Exec.toOption, Option.map, hres, hstates, hsent]
  simp [List.getLast?_append, JobStateFinished, sampleSys, SignalJobDone]

theorem doc_shape (q0 : State) (rest d : List State)
    (hrest : ∀ x ∈ rest, x.State ≠ JobStateQueued)
    (hbase : [q0] <+: d) (hpre : d <+: q0 :: rest) :
    d.head? = some q0 ∧ ∀ x ∈ d.tail, x.State ≠ JobStateQueued := by
  rcases List.prefix_cons_iff.mp hpre with h | ⟨t, h, ht⟩
  · subst h
    simpa using hbase.length_le
  · subst h
    exact ⟨rfl, fun x hx => hrest x (ht.subset hx)⟩

theorem started_ne_queued (x : State) (h : x.State = JobStateStarted) :
    x.State ≠ JobStateQueued := by
  rw [h]; decide

theorem started_ne_finished (x : State) (h : x.State = JobStateStarted) :
    x.State ≠ JobStateFinished := by
  rw [h]; decide

/-- C9 (monotone state history).  A submitted job (`States` is the one
QUEUED entry; container configuration and input fileset present, as `submit`
writes them) is claimed and, when the claim succeeds, run by its driver to the
end, whatever the allocator and the stages meet.  The run returns.  The
values handed to the KV store for the job are, in order, the claim and then
each save of `Job.start`: the `States` of each extend the `States` of the one
before, each starts with the QUEUED entry and has no QUEUED entry after index
0.  When the claim succeeds the driver ends with `States` made of the QUEUED
entry, STARTED entries, and exactly one FINISHED entry in last place; that
job is the last value written, and it is the only written value that holds a
FINISHED entry.  When the claim does not succeed no value holds a FINISHED
entry. -/
theorem monotone_state_history {ω : Type} (W : World ω) (worker : Worker) (node : Node)
    (s : Sys ω) (j : Job) (q0 : State) (c : Container) (conf : Config) (fs : JobFileset)
    (input : Fileset)
    (hparse : W.unmarshalJob node.Value = .ok j)
    (hstates : j.States = [q0]) (hq : q0.State = JobStateQueued)
    (hc : j.Container = some c) (hconf : c.Config = some conf)
    (hfs : j.Fileset = some fs) (hin : fs.Input = some input)
    (hm : ∀ job, ∃ b, W.marshalJob job = .ok b)
    (hs : s.docs = []) :
    ∃ r s', Worker.claimAndRun W worker node s = .ret (r, s') ∧
      s'.docs.head? = some (claimOf worker node j (W.now s.world).1) ∧
      List.Chain' (fun a b : Job => a.States <+: b.States) s'.docs ∧
      (∀ d ∈ s'.docs, d.States.head? = some q0 ∧ ∀ x ∈ d.States.tail, x.State ≠ JobStateQueued) ∧
      (∀ job s1, Worker.tryAllocateJob W worker node s = .ret ((some job, none), s1) →
        r ≠ none) ∧
      (match r with
       | none => ∀ d ∈ s'.docs, ∀ x ∈ d.States, x.State ≠ JobStateFinished
       | some job' => ∃ mid fin, job'.States = q0 :: mid ++ [fin] ∧
           (∀ x ∈ mid, x.State = JobStateStarted) ∧ fin.State = JobStateFinished ∧
           s'.docs.getLast? = some job' ∧
           (∀ d ∈ s'.docs, d.States <+: job'.States) ∧
           ∀ d ∈ s'.docs, (∃ x ∈ d.States, x.State = JobStateFinished) →
             d.States = job'.States) := by
  have hlast : j.States.getLast? = some q0 := by rw [hstates]; rfl
  obtain ⟨b, hb⟩ := hm (claimOf worker node j (W.now s.world).1)
  have h1 := tryAllocateJob_queued W worker node s j q0 b hparse hlast hq hb
  generalize hcl : claimOf worker node j (W.now s.world).1 = cl at h1 hb
  have hclS : cl.States = [q0, ⟨JobStateStarted, "Allocated", (W.now s.world).1⟩] := by
    rw [← hcl]; simp [claimOf, hstates]
  generalize hr : W.etcdCompareAndSwap (W.now s.world).2 node.Key b 0 "" node.ModifiedIndex = r
    at h1
  have hdocs1 : (s.recordDoc r.2 (Call.compareAndSwap node.Key b 0 "" node.ModifiedIndex) cl).docs
      = [cl] := by simp [Sys.recordDoc, hs]
  -- what holds when only the claim was submitted
  have hlost : ∀ s1 : Sys ω, s1.docs = [cl] →
      s1.docs.head? = some cl ∧
      List.Chain' (fun a b : Job => a.States <+: b.States) s1.docs ∧
      (∀ d ∈ s1.docs, d.States.head? = some q0 ∧
        ∀ x ∈ d.States.tail, x.State ≠ JobStateQueued) ∧
      (∀ d ∈ s1.docs, ∀ x ∈ d.States, x.State ≠ JobStateFinished) := by
    intro s1 h
    rw [h]
    refine ⟨rfl, List.chain'_singleton _, ?_, ?_⟩
    · intro d hd
      simp only [List.mem_singleton] at hd
      subst hd
      rw [hclS]
      exact ⟨rfl, by simp [JobStateStarted, JobStateQueued]⟩
    · intro d hd x hx
      simp only [List.mem_singleton] at hd
      subst hd
      rw [hclS] at hx
      simp only [List.mem_cons, List.mem_singleton, List.not_mem_nil, or_false] at hx
      rcases hx with rfl | rfl
      · rw [hq]; decide
      · exact started_ne_finished _ rfl
  rcases r with ⟨_ | e, w⟩
  · -- the claim succeeded and the driver runs
    simp only [] at h1
    generalize hs1 : s.recordDoc w (Call.compareAndSwap node.Key b 0 "" node.ModifiedIndex) cl
      = s1 at h1 hdocs1
    obtain ⟨job', s2, mid, t, res, hrun, hst, hmid, _, hhist, hgrow, _, hlastdoc⟩ :=
      start_finishes W worker.config cl s1 c conf fs input
        (by rw [← hcl]; exact hc) hconf (by rw [← hcl]; exact hfs) hin
    have hH : Hist cl.States job'.States s2.docs := by
      apply hhist
      rw [hdocs1]
      refine ⟨List.chain'_singleton _, List.prefix_refl _, ?_⟩
      intro d hd
      simp only [List.mem_singleton] at hd
      subst hd
      exact ⟨List.prefix_refl _, List.prefix_refl _⟩
    have hshape : job'.States = q0 :: (⟨JobStateStarted, "Allocated", (W.now s.world).1⟩ :: mid)
          ++ [⟨JobStateFinished, "", t⟩] := by
      rw [hst, hclS]; simp
    have hmid' : ∀ x ∈ (⟨JobStateStarted, "Allocated", (W.now s.world).1⟩ : State) :: mid,
        x.State = JobStateStarted := by
      intro x hx
      rcases List.mem_cons.mp hx with rfl | hx
      · rfl
      · exact hmid x hx
    refine ⟨some job', s2, by simp only [Worker.claimAndRun, h1, hrun], ?_, hH.1, ?_, ?_, ?_⟩
    · rw [hdocs1] at hgrow
      obtain ⟨more, hmore⟩ := hgrow
      rw [← hmore]; rfl
    · intro d hd
      have hb1 : [q0] <+: d.States :=
        (show [q0] <+: cl.States from by rw [hclS]; exact ⟨[_], rfl⟩).trans (hH.2.2 d hd).1
      refine doc_shape q0 ((⟨JobStateStarted, "Allocated", (W.now s.world).1⟩ :: mid)
        ++ [⟨JobStateFinished, "", t⟩]) d.States ?_ hb1
        (by rw [← List.cons_append, ← hshape]; exact (hH.2.2 d hd).2)
      intro x hx
      rcases List.mem_append.mp hx with hx | hx
      · exact started_ne_queued x (hmid' x hx)
      · simp only [List.mem_singleton] at hx
        subst hx
        show JobStateFinished ≠ JobStateQueued
        decide
    · intro _ _ _; simp
    · refine ⟨_, _, hshape, hmid', rfl, hlastdoc hm, fun d hd => (hH.2.2 d hd).2, ?_⟩
      intro d hd ⟨x, hx, hxf⟩
      have hp := (hH.2.2 d hd).2
      rw [hshape] at hp
      rcases List.prefix_concat_iff.mp hp with h | h
      · rw [h, hshape]
      · exfalso
        have hx' := h.subset hx
        rcases List.mem_cons.mp hx' with rfl | hx'
        · rw [hq] at hxf; exact absurd hxf (by decide)
        · exact started_ne_finished x (hmid' x hx') hxf
  · -- the claim was refused or failed: no driver runs
    have hrun : Worker.claimAndRun W worker node s = .ret (none,
        s.recordDoc w (Call.compareAndSwap node.Key b 0 "" node.ModifiedIndex) cl) := by
      cases e with
      | etcd code m =>
        by_cases hcode : code = 101
        · simp only [hcode, if_true] at h1
          simp only [Worker.claimAndRun, h1]
        · simp only [hcode, if_false] at h1
          simp only [Worker.claimAndRun, h1]
      | other m =>
        simp only [] at h1
        simp only [Worker.claimAndRun, h1]
    obtain ⟨g1, g2, g3, g4⟩ := hlost _ hdocs1
    refine ⟨none, _, hrun, g1, g2, g3, ?_, g4⟩
    intro job s1 hj
    exfalso
    cases e with
    | etcd code m =>
      by_cases hcode : code = 101
      · simp only [hcode, if_true] at h1
        rw [h1] at hj; cases hj
      · simp only [hcode, if_false] at h1
        rw [h1] at hj; cases hj
    | other m =>
      simp only [] at h1
      rw [h1] at hj; cases hj

theorem monotone_state_history_witness :
    List.Chain' (fun a b : Job => a.States <+: b.States)
      (((Worker.claimAndRun sampleWorld (sampleWorker "a") sampleNode sampleSys).toOption.map
        (fun r => r.2.docs)).getD []) := by
  obtain ⟨r, s', hrun, _, hchain, _⟩ :=
    monotone_state_history sampleWorld (sampleWorker "a") sampleNode sampleSys sampleJob
      ⟨"QUEUED", "", 0⟩ ⟨"", some sampleImageConfig⟩ sampleImageConfig
      ⟨some ⟨"hello", []⟩, some ⟨"hello_out", []⟩⟩ ⟨"hello", []⟩
      rfl rfl rfl rfl rfl rfl rfl (fun job => ⟨"job by " ++ job.Owner, rfl⟩) rfl
  rw [hrun]
  exact hchain


theorem poll_installs {ω : Type} (W : World ω) (worker : Worker) (env : Sys ω)
    (worker' : Worker) (spawned : Option Job) (s' : Sys ω)
    (h : Worker.poll W worker env = .ret (worker', spawned, s')) :
    (spawned = none ∧ worker' = worker) ∨
      (∃ job, spawned = some job ∧ worker'.currentJob = some job) := by
  unfold Worker.poll at h
  simp only [] at h
  split at h
  · injection h with h
    injection h with h1 h
    injection h with h2 h3
    exact Or.inl ⟨h2.symm, h1.symm⟩
  · split at h
    · cases h
    · injection h with h
      injection h with h1 h
      injection h with h2 h3
      exact Or.inl ⟨h2.symm, h1.symm⟩
    · injection h with h
      injection h with h1 h
      injection h with h2 h3
      subst h1 h2
      exact Or.inr ⟨_, rfl, rfl⟩

/-- A driver is spawned only by a poll tick handled while `currentJob` is
nil, and the spawned job is then the current job. -/
theorem handle_spawn {ω : Type} (W : World ω) (worker : Worker) (ev : Event) (env : Sys ω)
    (worker' : Worker) (alive : Bool) (job : Job) (s' : Sys ω)
    (h : Worker.handle W worker ev env = .ret (worker', alive, some job, s')) :
    ev = .pollTick ∧ worker.currentJob = none ∧ worker'.currentJob = some job := by
  unfold Worker.handle at h
  cases ev with
  | signal sig =>
    simp only [] at h
    split at h
    · injection h with h; injection h with _ h; injection h with _ h; injection h with h _
      cases h
    · split at h
      · injection h with h; injection h with _ h; injection h with _ h; injection h with h _
        cases h
      · injection h with h; injection h with _ h; injection h with _ h; injection h with h _
        cases h
  | heartbeat now =>
    simp only [] at h
    injection h with h; injection h with _ h; injection h with _ h; injection h with h _
    cases h
  | pollTick =>
    simp only [] at h
    cases hcur : worker.currentJob with
    | some j =>
      simp only [hcur] at h
      injection h with h; injection h with _ h; injection h with _ h; injection h with h _
      cases h
    | none =>
      simp only [hcur] at h
      split at h
      · cases h
      · rename_i w1 sp s1 hpoll
        injection h with h; injection h with hw h; injection h with _ h; injection h with hsp _
        subst hw hsp
        rcases poll_installs W worker env _ _ _ hpoll with ⟨hn, _⟩ | ⟨job', hj, hc⟩
        · cases hn
        · injection hj with hj
          subst hj
          exact ⟨rfl, rfl, hc⟩

theorem step_keeps_driver {ω : Type} (W : World ω) (l l' : Loop ω) (ev : Event) (env : Sys ω)
    (hinv : l.drivers = l.worker.currentJob.toList)
    (hstep : Loop.step W l ev env = some l') :
    l'.drivers = l'.worker.currentJob.toList := by
  have htail : l.drivers.tail = [] := by
    rw [hinv]; cases l.worker.currentJob <;> rfl
  unfold Loop.step at hstep
  split at hstep
  · cases hstep
  · split at hstep
    · cases hstep
    · split at hstep
      · cases hstep
      · rename_i worker' alive spawned sys' hh
        injection hstep with hstep
        subst hstep
        simp only []
        cases ev with
        | signal sig =>
          unfold Worker.handle at hh
          simp only [] at hh
          by_cases hsave : sig = SignalSave
          · have hne : sig ≠ SignalJobDone := by rw [hsave]; decide
            simp only [hsave, if_true] at hh
            injection hh with hh; injection hh with hw hh; injection hh with _ hh
            injection hh with hsp _
            subst hw hsp
            have hne' : SignalSave ≠ SignalJobDone := by decide
            simp [hne', hinv, hsave]
          · by_cases hdone : sig = SignalJobDone
            · simp only [hsave, hdone, if_true, if_false] at hh
              injection hh with hh; injection hh with hw hh; injection hh with _ hh
              injection hh with hsp _
              subst hw hsp
              simp [hdone, htail]
            · simp only [hsave, hdone, if_false] at hh
              injection hh with hh; injection hh with hw hh; injection hh with _ hh
              injection hh with hsp _
              subst hw hsp
              simp [hdone, hinv]
        | heartbeat now =>
          unfold Worker.handle at hh
          simp only [] at hh
          injection hh with hh; injection hh with hw hh; injection hh with _ hh
          injection hh with hsp _
          subst hw hsp
          simp [hinv]
        | pollTick =>
          cases spawned with
          | some job =>
            obtain ⟨_, hnone, hcur⟩ := handle_spawn W l.worker .pollTick env _ _ _ _ hh
            rw [hnone] at hinv
            simp [hinv, hcur]
          | none =>
            unfold Worker.handle at hh
            simp only [] at hh
            cases hcur : l.worker.currentJob with
            | some j =>
              simp only [hcur] at hh
              injection hh with hh; injection hh with hw _
              subst hw
              simp [hinv]
            | none =>
              simp only [hcur] at hh
              split at hh
              · cases hh
              · rename_i w1 sp s1 hpoll
                injection hh with hh; injection hh with hw hh; injection hh with _ hh
                injection hh with hsp _
                subst hw hsp
                rcases poll_installs W l.worker env _ _ _ hpoll with ⟨_, hw⟩ | ⟨job', hj, _⟩
                · rw [hw]; simp [hinv]
                · cases hj

theorem run_keeps_driver {ω : Type} (W : World ω) (evs : List (Event × Sys ω)) :
    ∀ (l l' : Loop ω), l.drivers = l.worker.currentJob.toList →
      Loop.run W l evs = some l' → l'.drivers = l'.worker.currentJob.toList := by
  induction evs with
  | nil =>
    intro l l' hinv hrun
    simp only [Loop.run, Option.some.injEq] at hrun
    subst hrun
    exact hinv
  | cons p rest ih =>
    intro l l' hinv hrun
    obtain ⟨ev, env⟩ := p
    simp only [Loop.run] at hrun
    cases hstep : Loop.step W l ev env with
    | none => rw [hstep] at hrun; cases hrun
    | some l1 =>
      rw [hstep] at hrun
      exact ih l1 l' (step_keeps_driver W l l1 ev env hinv hstep) hrun

/-- C10 (one pipeline driver per worker).  In every state the loop of
`Worker.Start` reaches from its start, through signals, heartbeat ticks and
poll ticks, with `JOB_DONE` arriving only from a running driver that ends with
it: at most one driver runs, the running drivers are exactly the current job
(so `currentJob` is non-nil from the spawn until that driver's `JOB_DONE` is
handled), and an iteration spawns a driver only when the event is a poll tick
and `currentJob` is nil, making the spawned job the current job. -/
theorem one_pipeline_driver {ω : Type} (W : World ω) (worker : Worker) (sys : Sys ω)
    (evs : List (Event × Sys ω)) (l : Loop ω)
    (hrun : Loop.run W (Loop.init worker sys) evs = some l) :
    l.drivers.length ≤ 1 ∧ l.drivers = l.worker.currentJob.toList ∧
      ∀ ev env worker' alive job s',
        Worker.handle W l.worker ev env = .ret (worker', alive, some job, s') →
          ev = .pollTick ∧ l.worker.currentJob = none ∧ l.drivers = [] ∧
            worker'.currentJob = some job := by
  have hinv := run_keeps_driver W evs (Loop.init worker sys) l rfl hrun
  refine ⟨?_, hinv, ?_⟩
  · rw [hinv]; cases l.worker.currentJob <;> simp
  · intro ev env worker' alive job s' h
    obtain ⟨h1, h2, h3⟩ := handle_spawn W l.worker ev env worker' alive job s' h
    exact ⟨h1, h2, by rw [hinv, h2]; rfl, h3⟩

theorem one_pipeline_driver_witness :
    ((Loop.run sampleWorld (Loop.init (sampleWorker "a") sampleSys)
        (sampleEvents.take 3)).getD (Loop.init (sampleWorker "a") sampleSys)).drivers.length ≤ 1 :=
  (one_pipeline_driver sampleWorld (sampleWorker "a") sampleSys (sampleEvents.take 3)
    ((Loop.run sampleWorld (Loop.init (sampleWorker "a") sampleSys)
        (sampleEvents.take 3)).getD (Loop.init (sampleWorker "a") sampleSys)) rfl).1

/-! ## Documents without states -/

/-- Reading the last element of an empty `States` panics: on a node whose
value decodes to a job without states, `tryAllocateJob` does not return. -/
theorem tryAllocateJob_panics_of_empty {ω : Type} (W : World ω) (worker : Worker) (node : Node)
    (s : Sys ω) (j : Job) (hparse : W.unmarshalJob node.Value = .ok j) (hempty : j.States = []) :
    Worker.tryAllocateJob W worker node s = .panic "index out of range" := by
  unfold Worker.tryAllocateJob
  simp only [hparse, hempty, List.getLast?_nil]

/-- On every other node `tryAllocateJob` returns: when the value does not
decode, or decodes to a job with at least one state. -/
theorem tryAllocateJob_returns_of_nonempty {ω : Type} (W : World ω) (worker : Worker)
    (node : Node) (s : Sys ω)
    (h : ∀ j, W.unmarshalJob node.Value = .ok j → j.States ≠ []) :
    ∃ r s', Worker.tryAllocateJob W worker node s = .ret (r, s') := by
  unfold Worker.tryAllocateJob
  cases hparse : W.unmarshalJob node.Value with
  | error e => exact ⟨_, _, rfl⟩
  | ok j =>
    simp only []
    cases hl : j.States.getLast? with
    | none => exact absurd (List.getLast?_eq_none_iff.mp hl) (h j hparse)
    | some q =>
      simp only []
      by_cases hq : q.State = JobStateQueued
      · simp only [hq, ne_eq, not_true_eq_false, if_false]
        generalize W.now s.world = t
        cases W.marshalJob _ with
        | error e => exact ⟨_, _, rfl⟩
        | ok b =>
          simp only []
          generalize W.etcdCompareAndSwap _ _ _ _ _ _ = r
          rcases r with ⟨_ | e, w⟩
          · exact ⟨_, _, rfl⟩
          · cases e with
            | etcd code m =>
              simp only []
              by_cases hcode : code = 101
              · simp only [hcode, if_true]; exact ⟨_, _, rfl⟩
              · simp only [hcode, if_false]; exact ⟨_, _, rfl⟩
            | other m => exact ⟨_, _, rfl⟩
      · simp only [hq, ne_eq, not_false_eq_true, if_true]
        exact ⟨_, _, rfl⟩

/-- C11, the code at the failing input: the JSON document with no members
decodes to a job whose `States` is nil, and on a node holding it
`tryAllocateJob` panics with an index out of range instead of returning; so
does the `poll` whose list of children holds that node, even with a queued
job after it. -/
theorem empty_states_panics :
    emptyStatesWorld.unmarshalJob emptyStatesNode.Value = .ok emptyJob ∧
    Worker.tryAllocateJob emptyStatesWorld (sampleWorker "a") emptyStatesNode sampleSys =
      .panic "index out of range" ∧
    (Worker.poll emptyStatesWorld (sampleWorker "a")
        { world := [emptyStatesNode, sampleNode], calls := [], docs := [], sent := [] }).toOption.map
        (fun r => r.1.currentJob) = none :=
  ⟨rfl, tryAllocateJob_panics_of_empty emptyStatesWorld (sampleWorker "a") emptyStatesNode
    sampleSys emptyJob rfl rfl, by decide⟩

end Etcdq
